import Mathlib

/-!
Verification of the computational core of the RC-and-RL-Calculator repository
(`src/rc_rl_calculator/core/calculations.py`).

The Python code computes with IEEE-754 doubles.  We model a Python float as an
exact extended real: a finite value carries a real payload, and the special
values `inf`, `-inf` and `nan` are explicit constructors.  Arithmetic on
finite payloads is exact real arithmetic (the idealisation the specification
itself uses: it speaks of exact relationships such as `X_L = omega * L` and of
`+Infinity` as a deliberate sentinel, never of rounding).  The IEEE special
cases (`inf - inf = nan`, `0 * inf = nan`, comparisons involving `nan` being
false, ...) are modelled faithfully, because the code's open/short-circuit
signalling relies on them.

Python raises `ZeroDivisionError` when a float or complex division has a zero
denominator.  Divisions whose denominator is checked by the code itself in the
immediately dominating conditional are embedded as plain divisions; divisions
that could raise an observable `ZeroDivisionError` are embedded in the
`Except PyErr` monad.  Error messages are modelled by one constructor per
`raise` site, carrying the values interpolated into the message.
-/

open scoped Classical

namespace RCRL

/-- Model of a Python float: exact finite real, `inf`, `-inf`, or `nan`. -/
inductive PFloat where
  | fin (x : ℝ)
  | inf
  | ninf
  | nan

/-- Python `a < b` on floats: any comparison involving `nan` is false. -/
def PFloat.Lt : PFloat → PFloat → Prop
  | .fin a, .fin b => a < b
  | .fin _, .inf => True
  | .ninf, .fin _ => True
  | .ninf, .inf => True
  | _, _ => False

/-- Python `a <= b` on floats: any comparison involving `nan` is false. -/
def PFloat.Le : PFloat → PFloat → Prop
  | .fin a, .fin b => a ≤ b
  | .fin _, .inf => True
  | .ninf, .fin _ => True
  | .ninf, .inf => True
  | .ninf, .ninf => True
  | .inf, .inf => True
  | _, _ => False

/-- Python `x == 0` on a float (structurally: `nan == 0` and `inf == 0` are false). -/
def PFloat.isZero : PFloat → Prop
  | .fin a => a = 0
  | _ => False

/-- Python `x > 0` on a float (`nan > 0` is false, `inf > 0` is true). -/
def PFloat.Pos : PFloat → Prop
  | .fin a => 0 < a
  | .inf => True
  | _ => False

/-- IEEE-754 negation. -/
def PFloat.neg : PFloat → PFloat
  | .fin a => .fin (-a)
  | .inf => .ninf
  | .ninf => .inf
  | .nan => .nan

/-- IEEE-754 multiplication: `0 * inf = nan`, signs propagate, `nan` is absorbing. -/
noncomputable def PFloat.mul : PFloat → PFloat → PFloat
  | .fin a, .fin b => .fin (a * b)
  | .fin a, .inf => if a = 0 then .nan else if 0 < a then .inf else .ninf
  | .fin a, .ninf => if a = 0 then .nan else if 0 < a then .ninf else .inf
  | .inf, .fin b => if b = 0 then .nan else if 0 < b then .inf else .ninf
  | .ninf, .fin b => if b = 0 then .nan else if 0 < b then .ninf else .inf
  | .inf, .inf => .inf
  | .inf, .ninf => .ninf
  | .ninf, .inf => .ninf
  | .ninf, .ninf => .inf
  | _, _ => .nan

/-- Python float division for the divisions the code guards with its own
zero-test on the denominator.  A zero finite denominator would raise
`ZeroDivisionError` in Python; those call sites are embedded through `pdiv`
instead, so this total function maps that (never exercised) case to `nan`. -/
noncomputable def PFloat.div : PFloat → PFloat → PFloat
  | .fin a, .fin b => if b = 0 then .nan else .fin (a / b)
  | .fin _, .inf => .fin 0
  | .fin _, .ninf => .fin 0
  | .inf, .fin b => if b = 0 then .nan else if 0 < b then .inf else .ninf
  | .ninf, .fin b => if b = 0 then .nan else if 0 < b then .ninf else .inf
  | _, _ => .nan

/-- The `param_type` discriminator of the reactance deriver: `'L'` or `'C'`. -/
inductive ParamType where
  | L
  | C
deriving DecidableEq

/-- The `circuit_type` discriminator of the series two-element solver. -/
inductive CircuitType where
  | RL
  | RC
deriving DecidableEq

/-- The error categories observable from the embedded code.  `valueError`
carries the message, modelled as one constructor per `raise` site (see
`VErr`); `zeroDivisionError` is Python's exception for a zero denominator. -/
inductive VErr where
  /-- "{param_type} cannot be negative." -/
  | negativeComponent (param_type : ParamType)
  /-- "Reactance magnitude (X_{param_type}) cannot be negative." -/
  | negativeReactance (param_type : ParamType)
  /-- "Angular frequency (omega) cannot be negative." -/
  | negativeOmega
  /-- "Capacitance (C) must be positive." -/
  | capacitanceNotPositive
  /-- "Capacitance cannot be zero." -/
  | capacitanceZero
  /-- "Inconsistency: X_L must be 0 if frequency is 0 Hz." -/
  | xlMustBeZeroAtDC
  /-- "Cannot determine C from X_C ({reactance_val} Ω) if frequency is 0 Hz." -/
  | cannotCFromXcAtDC (reactance_val : PFloat)
  /-- "Cannot determine L if frequency is 0 Hz (unless X_L is also 0)." -/
  | cannotLAtDC
  /-- "Cannot determine C if X_C is 0." -/
  | cannotCIfXcZero
  /-- "Cannot determine C if frequency is 0 Hz." -/
  | cannotCAtDC
  /-- "Cannot calculate frequency from X_L if L is 0." -/
  | cannotFreqFromXlIfLZero
  /-- "Capacitance must be positive." -/
  | capacitanceMustBePositive
  /-- "Cannot calculate frequency if X_C is 0 (implies infinite frequency or C=inf)." -/
  | cannotFreqIfXcZero
  /-- "Calculation error: Division by zero occurred." -/
  | calcDivByZero
  /-- "Inconsistent input: Provided/derived X_? ({r} Ω) does not match calculated
  value ({expected} Ω) from ? and frequency." -/
  | inconsistent (param_type : ParamType) (r expected : PFloat)
  /-- "V RMS must be non-negative." -/
  | vrmsNegative
  /-- "Resistance (R) must be non-negative." -/
  | resistanceNegative
  /-- "Frequency (f) must be non-negative." -/
  | frequencyNegative
  /-- "Parameter Derivation Error ({circuit_type}): {e}" (wrapping) -/
  | derivation (circuit_type : CircuitType) (inner : VErr)
  /-- "Insufficient parameters for {circuit_type} circuit. ..." -/
  | insufficientParams (circuit_type : CircuitType)
  /-- "Internal Error: Reactance could not be determined." -/
  | internalReactance
  /-- "All parameters must be non-negative." -/
  | allParamsNonneg
  /-- "Inductance, capacitance and frequency must be greater than zero for RLC analysis." -/
  | lcfMustBePositive
  /-- Modelled from the spec: validation message of the equivalent-component
  combiner for a non-positive entry. -/
  | nonPositiveComponentValue

/-- A Python exception: the single `ValueError` category used by the core, or
an escaped `ZeroDivisionError`. -/
inductive PyErr where
  | valueError (msg : VErr)
  | zeroDivisionError

/-- Python float division at call sites where the denominator is not checked by
an immediately dominating conditional: a zero finite denominator raises
`ZeroDivisionError`. -/
noncomputable def pdiv (a b : PFloat) : Except PyErr PFloat :=
  if b.isZero then .error .zeroDivisionError else .ok (a.div b)

/-- Python real (float) division with the same raising behaviour, for the
solvers whose scalars stay finite. -/
noncomputable def rdiv (a b : ℝ) : Except PyErr ℝ :=
  if b = 0 then .error .zeroDivisionError else .ok (a / b)

/-- Python complex reciprocal `1 / z`: raises `ZeroDivisionError` on `z = 0`. -/
noncomputable def cinv (z : ℂ) : Except PyErr ℂ :=
  if z = 0 then .error .zeroDivisionError else .ok z⁻¹

/-- `math.isclose` with the code's tolerances `rel_tol = 1e-6`, `abs_tol = 1e-9`
on finite values: `|a - b| <= max(rel_tol * max(|a|, |b|), abs_tol)`. -/
def isclose (a b : ℝ) : Prop :=
  |a - b| ≤ max ((1 / 1000000) * max |a| |b|) (1 / 1000000000)

/-- `math.isclose` lifted to floats (`nan` is close to nothing, equal infinities
are close). -/
def iscloseP : PFloat → PFloat → Prop
  | .fin a, .fin b => isclose a b
  | .inf, .inf => True
  | .ninf, .ninf => True
  | _, _ => False

/-- `not math.isinf(v)`: true for finite values and for `nan`. -/
def finiteP : PFloat → Prop
  | .inf => False
  | .ninf => False
  | _ => True

/-- Lines 148-158: the consistency verdict computed by the post-validation
block (`r_is_finite != exp_is_finite` → inconsistent; both infinite →
consistent; both finite → `math.isclose`). -/
def consistentChk (r e : PFloat) : Prop :=
  (finiteP r ↔ finiteP e) ∧ (¬ finiteP r ∨ iscloseP r e)

/-- `math.sqrt(2)`, module constant `SQRT_2`. -/
noncomputable def sqrt2R : ℝ := Real.sqrt 2

/-- `2 * math.pi`, module constant `TWO_PI`. -/
noncomputable def twoPiR : ℝ := 2 * Real.pi

/-- `TWO_PI` as a float. -/
noncomputable def twoPiF : PFloat := .fin twoPiR

/-- `math.hypot(r, x)` with a finite first argument: infinite second argument
gives `inf`, `nan` propagates, finite arguments give `sqrt(r^2 + x^2)`. -/
noncomputable def phypotR (r : ℝ) : PFloat → PFloat
  | .fin b => .fin (Real.sqrt (r ^ 2 + b ^ 2))
  | .inf => .inf
  | .ninf => .inf
  | .nan => .nan

/-- `math.atan2(y, x)` with a finite second argument: for finite `y` this is
the principal argument of the complex number `x + y*i`; `y = ±inf` gives
`±pi/2`; `nan` propagates. -/
noncomputable def patan2R : PFloat → ℝ → PFloat
  | .fin b, x => .fin (Complex.arg ⟨x, b⟩)
  | .inf, _ => .fin (Real.pi / 2)
  | .ninf, _ => .fin (-(Real.pi / 2))
  | .nan, _ => .nan

/-- `math.hypot` on two finite floats (series RLC solver). -/
noncomputable def hypotR (x y : ℝ) : ℝ := Real.sqrt (x ^ 2 + y ^ 2)

/-- `math.atan2(y, x)` on two finite floats. -/
noncomputable def atan2R (y x : ℝ) : ℝ := Complex.arg ⟨x, y⟩

/-- `math.degrees`. -/
noncomputable def degreesR (r : ℝ) : ℝ := r * 180 / Real.pi

/-- `math.degrees` lifted to floats. -/
noncomputable def pdeg : PFloat → PFloat
  | .fin a => .fin (degreesR a)
  | .inf => .inf
  | .ninf => .ninf
  | .nan => .nan

/-- `v is not None and v < 0` for an optional float. -/
def optLt0 : Option PFloat → Prop
  | some v => v.Lt (.fin 0)
  | none => False

/-- `v is not None and v <= 0` for an optional float. -/
def optLe0 : Option PFloat → Prop
  | some v => v.Le (.fin 0)
  | none => False

/-- `sum(x is not None for x in [a, b, c])` (line 61). -/
def countSome (a b c : Option PFloat) : ℕ :=
  (if a.isSome then 1 else 0) + (if b.isSome then 1 else 0) + (if c.isSome then 1 else 0)

/-- Lines 69-128 of `calculate_derived_reactance_params`: the single-missing-value
derivation branches (the body of the `try` block).  Exactly one branch fires,
keyed on which value is `None`; with zero or three `None`s the values pass
through unchanged. -/
noncomputable def deriveStep (component_val reactance_val omega : Option PFloat)
    (param_type : ParamType) :
    Except PyErr (Option PFloat × Option PFloat × Option PFloat) :=
  match component_val, reactance_val, omega with
  | some c, none, some w =>
      -- omega and component present, reactance missing (lines 70-78)
      if w.isZero then
        .ok (some c, some (if param_type = .L then .fin 0 else .inf), some w)
      else if param_type = .L then
        .ok (some c, some (w.mul c), some w)
      else if c.isZero then
        .error (.valueError .capacitanceZero)
      else
        (pdiv (.fin 1) (w.mul c)).map (fun v => (some c, some v, some w))
  | none, some x, some w =>
      -- omega and reactance present, component missing (lines 80-104)
      if w.isZero then
        if param_type = .L then
          if x.isZero then .ok (none, some x, some w)
          else .error (.valueError .xlMustBeZeroAtDC)
        else .error (.valueError (.cannotCFromXcAtDC x))
      else if param_type = .L then
        -- dead re-check of `omega == 0` kept from the source (lines 94-97)
        if w.isZero then .error (.valueError .cannotLAtDC)
        else (pdiv x w).map (fun v => (some v, some x, some w))
      else
        if x.isZero then .error (.valueError .cannotCIfXcZero)
        else if w.isZero then .error (.valueError .cannotCAtDC)
        else (pdiv (.fin 1) (w.mul x)).map (fun v => (some v, some x, some w))
  | some c, some x, none =>
      -- component and reactance present, omega missing (lines 106-127)
      if param_type = .L then
        if c.isZero then
          if x.isZero then .ok (some c, some x, none)
          else .error (.valueError .cannotFreqFromXlIfLZero)
        else (pdiv x c).map (fun v => (some c, some x, some v))
      else
        if c.Le (.fin 0) then .error (.valueError .capacitanceMustBePositive)
        else if x.isZero then .error (.valueError .cannotFreqIfXcZero)
        else if x = .inf then .ok (some c, some x, some (.fin 0))
        else (pdiv (.fin 1) (c.mul x)).map (fun v => (some c, some x, some v))
  | oc, ox, ow => .ok (oc, ox, ow)

/-- `except ZeroDivisionError: raise ValueError("Calculation error: ...")`
(lines 129-130). -/
def catchZeroDiv {α : Type} : Except PyErr α → Except PyErr α
  | .error .zeroDivisionError => .error (.valueError .calcDivByZero)
  | e => e

/-- Lines 132-172: if all three values ended up populated, recompute the
expected reactance from component and omega and check consistency against the
actual reactance.  The `1.0 / (w * c)` on line 145 sits outside the `try`
block, so its (unreachable) `ZeroDivisionError` would escape uncaught. -/
noncomputable def deriveValidate (dc dx dw : Option PFloat) (param_type : ParamType) :
    Except PyErr Unit :=
  match dc, dx, dw with
  | some c, some r, some w =>
      (if param_type = .C ∧ c.Le (.fin 0) then .ok none
       else if w.isZero then .ok (some (if param_type = .L then PFloat.fin 0 else .inf))
       else if param_type = .L then .ok (some (w.mul c))
       else (pdiv (.fin 1) (w.mul c)).map some).bind
        fun expected =>
          match expected with
          | none => .ok ()
          | some e =>
              if consistentChk r e then .ok ()
              else .error (.valueError (.inconsistent param_type r e))
  | _, _, _ => .ok ()

/-- `calculate_derived_reactance_params` (lines 10-174): validate signs, pass
through when fewer than two values are supplied, run the derivation branches
with `ZeroDivisionError` converted to the calculation `ValueError`, then
cross-check consistency. -/
noncomputable def calculate_derived_reactance_params
    (component_val reactance_val omega : Option PFloat) (param_type : ParamType) :
    Except PyErr (Option PFloat × Option PFloat × Option PFloat) :=
  if optLt0 component_val then
    .error (.valueError (.negativeComponent param_type))
  else if optLt0 reactance_val then
    .error (.valueError (.negativeReactance param_type))
  else if optLt0 omega then
    .error (.valueError .negativeOmega)
  else if param_type = .C ∧ optLe0 component_val then
    .error (.valueError .capacitanceNotPositive)
  else if countSome component_val reactance_val omega < 2 then
    .ok (component_val, reactance_val, omega)
  else
    match catchZeroDiv (deriveStep component_val reactance_val omega param_type) with
    | .error e => .error e
    | .ok (dc, dx, dw) =>
        match deriveValidate dc dx dw param_type with
        | .error e => .error e
        | .ok _ => .ok (dc, dx, dw)

/-- The result mapping of `calculate_series_ac_circuit` (lines 302-322).  The
key `param_type` (`'L'` or `'C'`) is `component`, the keys `X_{param_type}`
and `X` both hold `final_reactance` and are merged into the single field `X`.
`V_rms` and `R` echo the (real-valued) inputs. -/
structure SeriesACResult where
  V_rms : ℝ
  R : ℝ
  f : Option PFloat
  omega : Option PFloat
  component : Option PFloat
  X : PFloat
  Z : PFloat
  phi : PFloat
  I_rms : PFloat
  I_peak : PFloat
  V_rms_R : PFloat
  V_rms_X : PFloat
  V_peak : ℝ
  input_L : Option PFloat
  input_C : Option PFloat
  input_XL : Option PFloat
  input_XC : Option PFloat
  input_f : Option PFloat

/-- Lines 243-323 of `calculate_series_ac_circuit`: everything after parameter
derivation.  `final_omega / TWO_PI` (line 251) divides by the nonzero constant
`2*pi`, so it is embedded with the total float division. -/
noncomputable def seriesACFinish (V_rms R : ℝ)
    (component_val reactance_val f : Option PFloat) (circuit_type : CircuitType)
    (final_comp final_reactance final_omega : Option PFloat) :
    Except PyErr SeriesACResult :=
  let is_dc_open_circuit := circuit_type = .RC ∧ final_reactance = some PFloat.inf
  if final_reactance = none ∨ (final_omega = none ∧ ¬ is_dc_open_circuit) then
    .error (.valueError (.insufficientParams circuit_type))
  else
    -- lines 250-256
    let ffw : Option PFloat × Option PFloat :=
      match final_omega with
      | some w => (some (w.div twoPiF), some w)
      | none =>
          if is_dc_open_circuit then (some (.fin 0), some (.fin 0)) else (none, none)
    let final_f := ffw.1
    let final_omega2 := ffw.2
    let is_rc := circuit_type = .RC
    match final_reactance with
    | none => .error (.valueError .internalReactance)
    | some X =>
        let reactance_signed := if is_rc then X.neg else X
        let mk : PFloat → PFloat → PFloat → PFloat → PFloat → SeriesACResult :=
          fun Z phi I_rms V_rms_R V_rms_X =>
            { V_rms := V_rms
              R := R
              f := final_f
              omega := final_omega2
              component := final_comp
              X := X
              Z := Z
              phi := phi
              I_rms := I_rms
              I_peak := if I_rms ≠ .inf then I_rms.mul (.fin sqrt2R) else .inf
              V_rms_R := V_rms_R
              V_rms_X := V_rms_X
              V_peak := V_rms * sqrt2R
              input_L := if circuit_type = .RL then component_val else none
              input_C := if circuit_type = .RC then component_val else none
              input_XL := if circuit_type = .RL then reactance_val else none
              input_XC := if circuit_type = .RC then reactance_val else none
              input_f := f }
        if X = .inf then
          -- lines 264-269: open circuit
          .ok (mk .inf (.fin (-90)) (.fin 0) (.fin 0) (.fin V_rms))
        else if R = 0 ∧ X.isZero then
          -- lines 270-280: zero impedance
          .ok (mk (.fin 0) (.fin 0) (if 0 < V_rms then .inf else .fin 0) (.fin 0) (.fin 0))
        else
          -- lines 281-297: general case; `V_rms / Z` is dominated by the
          -- code's own `Z == 0` test
          let Z := phypotR R X
          let phi := pdeg (patan2R reactance_signed R)
          let I_rms := if Z.isZero then (if 0 < V_rms then PFloat.inf else .fin 0)
                       else (PFloat.fin V_rms).div Z
          let V_rms_R := if I_rms ≠ .inf then I_rms.mul (.fin R)
                         else if 0 < R ∧ 0 < V_rms then PFloat.inf else .fin 0
          let V_rms_X := if I_rms ≠ .inf then I_rms.mul X
                         else if X.Pos ∧ 0 < V_rms then PFloat.inf else .fin 0
          .ok (mk Z phi I_rms V_rms_R V_rms_X)

/-- `calculate_series_ac_circuit` (lines 177-323): validate signs, convert the
frequency to an angular frequency, derive the missing reactance parameter
(wrapping its `ValueError`s with circuit-type context), then solve. -/
noncomputable def calculate_series_ac_circuit (V_rms R : ℝ)
    (component_val reactance_val f : Option PFloat) (circuit_type : CircuitType) :
    Except PyErr SeriesACResult :=
  if V_rms < 0 then .error (.valueError .vrmsNegative)
  else if R < 0 then .error (.valueError .resistanceNegative)
  else if optLt0 f then .error (.valueError .frequencyNegative)
  else
    let param_type := if circuit_type = .RL then ParamType.L else ParamType.C
    let omega := f.map (fun fv => twoPiF.mul fv)
    match calculate_derived_reactance_params component_val reactance_val omega param_type with
    | .error (.valueError m) => .error (.valueError (.derivation circuit_type m))
    | .error e => .error e
    | .ok (fc, fx, fw) =>
        seriesACFinish V_rms R component_val reactance_val f circuit_type fc fx fw

/-- The result mapping of `calculate_series_rlc_circuit` (lines 372-390).
Inputs and the quantities that are finite by construction are real-valued;
current and per-element voltages may be the `+inf` sentinel. -/
structure SeriesRLCResult where
  V_rms : ℝ
  R : ℝ
  L : ℝ
  C : ℝ
  f : ℝ
  omega : ℝ
  X_L : ℝ
  X_C : ℝ
  X : ℝ
  Z : ℝ
  phi : ℝ
  I_rms : PFloat
  I_peak : PFloat
  V_rms_R : PFloat
  V_rms_L : PFloat
  V_rms_C : PFloat
  V_peak : ℝ

/-- `calculate_series_rlc_circuit` (lines 326-390).  The division
`1.0 / (omega * C)` on line 358 has no dominating zero-test on its
denominator (only the earlier positivity raise), so it is embedded with the
raising division `rdiv`; `V_rms / Z` is dominated by the code's `Z == 0`
test. -/
noncomputable def calculate_series_rlc_circuit (V_rms R L C f : ℝ) :
    Except PyErr SeriesRLCResult :=
  if V_rms < 0 ∨ R < 0 ∨ L < 0 ∨ C < 0 ∨ f < 0 then
    .error (.valueError .allParamsNonneg)
  else if L ≤ 0 ∨ C ≤ 0 ∨ f ≤ 0 then
    .error (.valueError .lcfMustBePositive)
  else
    let omega := twoPiR * f
    let X_L := omega * L
    (rdiv 1 (omega * C)).bind fun X_C =>
      let X := X_L - X_C
      let Z := hypotR R X
      let phi := degreesR (atan2R X R)
      let I_rms : PFloat := if Z = 0 then (if 0 < V_rms then .inf else .fin 0)
                            else .fin (V_rms / Z)
      let V_rms_R := if I_rms ≠ PFloat.inf then I_rms.mul (.fin R) else PFloat.inf
      let V_rms_L := if I_rms ≠ PFloat.inf then I_rms.mul (.fin X_L) else PFloat.inf
      let V_rms_C := if I_rms ≠ PFloat.inf then I_rms.mul (.fin X_C) else PFloat.inf
      let V_peak := V_rms * sqrt2R
      let I_peak := if I_rms ≠ PFloat.inf then I_rms.mul (.fin sqrt2R) else PFloat.inf
      .ok { V_rms := V_rms, R := R, L := L, C := C, f := f, omega := omega,
            X_L := X_L, X_C := X_C, X := X, Z := Z, phi := phi, I_rms := I_rms,
            I_peak := I_peak, V_rms_R := V_rms_R, V_rms_L := V_rms_L,
            V_rms_C := V_rms_C, V_peak := V_peak }

/-- The result mapping of `calculate_parallel_rlc_circuit` (lines 435-452). -/
structure ParallelRLCResult where
  V_rms : ℝ
  R : ℝ
  L : ℝ
  C : ℝ
  f : ℝ
  omega : ℝ
  X_L : ℝ
  X_C : ℝ
  Z : PFloat
  phi : ℝ
  I_rms : PFloat
  I_peak : PFloat
  I_rms_R : PFloat
  I_rms_L : PFloat
  I_rms_C : PFloat
  V_peak : ℝ

/-- `calculate_parallel_rlc_circuit` (lines 393-452).  The branch admittances
`1/Z_R`, `1/Z_L`, `1/Z_C` and the total impedance `1/Y_total` are Python
complex divisions, which raise `ZeroDivisionError` on a zero denominator
(`cinv`); only the `1/Y_total` one is guarded by the code (`Y_total == 0`, in
which case `Z_total = complex(inf)`, whose magnitude is `inf` and whose
`cmath.phase` is `0.0`).  The per-branch currents are guarded float
divisions. -/
noncomputable def calculate_parallel_rlc_circuit (V_rms R L C f : ℝ) :
    Except PyErr ParallelRLCResult :=
  if V_rms < 0 ∨ R < 0 ∨ L < 0 ∨ C < 0 ∨ f < 0 then
    .error (.valueError .allParamsNonneg)
  else if L ≤ 0 ∨ C ≤ 0 ∨ f ≤ 0 then
    .error (.valueError .lcfMustBePositive)
  else
    let omega := twoPiR * f
    let X_L := omega * L
    (rdiv 1 (omega * C)).bind fun X_C =>
      let Z_R : ℂ := ⟨R, 0⟩
      let Z_L : ℂ := ⟨0, X_L⟩
      let Z_C : ℂ := ⟨0, -X_C⟩
      (cinv Z_R).bind fun yR =>
        (cinv Z_L).bind fun yL =>
          (cinv Z_C).bind fun yC =>
            let Y_total := yR + yL + yC
            (if Y_total = 0 then .ok (PFloat.inf, (0 : ℝ))
             else (cinv Y_total).map fun Z_total =>
               (PFloat.fin (Complex.abs Z_total), Complex.arg Z_total)).bind
              fun zp =>
                let Z := zp.1
                let phi := degreesR zp.2
                let I_rms := if Z.isZero then (if 0 < V_rms then PFloat.inf else .fin 0)
                             else (PFloat.fin V_rms).div Z
                let I_rms_R : PFloat := if R ≠ 0 then .fin (V_rms / R) else .inf
                let I_rms_L : PFloat := if X_L ≠ 0 then .fin (V_rms / X_L) else .inf
                let I_rms_C : PFloat := if X_C ≠ 0 then .fin (V_rms / X_C) else .inf
                let V_peak := V_rms * sqrt2R
                let I_peak := if I_rms ≠ PFloat.inf then I_rms.mul (.fin sqrt2R)
                              else PFloat.inf
                .ok { V_rms := V_rms, R := R, L := L, C := C, f := f, omega := omega,
                      X_L := X_L, X_C := X_C, Z := Z, phi := phi, I_rms := I_rms,
                      I_peak := I_peak, I_rms_R := I_rms_R, I_rms_L := I_rms_L,
                      I_rms_C := I_rms_C, V_peak := V_peak }

/-- The `arrangement` tag of the equivalent-component combiner. -/
inductive Arrangement where
  | series
  | parallel
deriving DecidableEq

/-- Modelled from the spec: `equivalent_capacitance(values, arrangement)` is
imported by `tests/test_calculations.py` from
`rc_rl_calculator.core.calculations` but is not present in any file under
`src/`.  Spec 4.5: "All `values` must be strictly positive; fails with
`ValidationError` on any non-positive entry.  Parallel capacitance ...:
simple sum.  Series capacitance ...: reciprocal-of-sum-of-reciprocals." -/
noncomputable def equivalent_capacitance (values : List ℝ) (arrangement : Arrangement) :
    Except PyErr ℝ :=
  if ∃ v ∈ values, v ≤ 0 then .error (.valueError .nonPositiveComponentValue)
  else
    match arrangement with
    | .parallel => .ok values.sum
    | .series => .ok (1 / (values.map (fun v => 1 / v)).sum)

/-- Modelled from the spec: `equivalent_inductance(values, arrangement)`, the
mirror of `equivalent_capacitance` (spec 4.5: series inductance is the simple
sum, parallel inductance the reciprocal-of-sum-of-reciprocals). -/
noncomputable def equivalent_inductance (values : List ℝ) (arrangement : Arrangement) :
    Except PyErr ℝ :=
  if ∃ v ∈ values, v ≤ 0 then .error (.valueError .nonPositiveComponentValue)
  else
    match arrangement with
    | .series => .ok values.sum
    | .parallel => .ok (1 / (values.map (fun v => 1 / v)).sum)

/-! Predicates used by the claims. -/

/-- A float value that is a number in the sense of the spec's result contract:
finite or `+Infinity` — not `nan`, not `-Infinity`. -/
def PFloat.IsNum : PFloat → Prop
  | .fin _ => True
  | .inf => True
  | _ => False

/-- An optional result value: `null`, finite, or `+Infinity`. -/
def OptNum : Option PFloat → Prop
  | none => True
  | some v => v.IsNum

/-- An admissible optional input as the solver preconditions describe them:
absent, a non-negative real measurement, or the `+Infinity` sentinel. -/
def OptAdm : Option PFloat → Prop
  | none => True
  | some (.fin a) => 0 ≤ a
  | some .inf => True
  | some _ => False

/-- An admissible populated value: a non-negative real or `+Infinity`. -/
def ValAdm : PFloat → Prop
  | .fin a => 0 ≤ a
  | .inf => True
  | _ => False

/-- Every value of a series-AC result mapping is `null`, finite, or `+Infinity`
(the real-valued fields are finite by type). -/
def SeriesACResultNum (r : SeriesACResult) : Prop :=
  OptNum r.f ∧ OptNum r.omega ∧ OptNum r.component ∧ r.X.IsNum ∧ r.Z.IsNum ∧
    r.phi.IsNum ∧ r.I_rms.IsNum ∧ r.I_peak.IsNum ∧ r.V_rms_R.IsNum ∧
    r.V_rms_X.IsNum ∧ OptNum r.input_L ∧ OptNum r.input_C ∧ OptNum r.input_XL ∧
    OptNum r.input_XC ∧ OptNum r.input_f

/-- Every value of a series-RLC result mapping is finite or `+Infinity`. -/
def SeriesRLCResultNum (r : SeriesRLCResult) : Prop :=
  r.I_rms.IsNum ∧ r.I_peak.IsNum ∧ r.V_rms_R.IsNum ∧ r.V_rms_L.IsNum ∧
    r.V_rms_C.IsNum

/-- Every value of a parallel-RLC result mapping is finite or `+Infinity`. -/
def ParallelRLCResultNum (r : ParallelRLCResult) : Prop :=
  r.Z.IsNum ∧ r.I_rms.IsNum ∧ r.I_peak.IsNum ∧ r.I_rms_R.IsNum ∧
    r.I_rms_L.IsNum ∧ r.I_rms_C.IsNum

/-- The defining closed-form relationship between component value, reactance
magnitude and angular frequency: `X_L = omega * L` for inductors and
`X_C = 1 / (omega * C)` (equivalently `omega * C * X_C = 1`) for capacitors. -/
def reactanceRel : ParamType → ℝ → ℝ → ℝ → Prop
  | .L, c, x, w => x = w * c
  | .C, c, x, w => w * c * x = 1

/-- Claim C5's expected reactance, recomputed from component and omega exactly
as the spec describes it: `0` (inductor) or `+Infinity` (capacitor) at
`omega = 0`, else the closed form. -/
noncomputable def claimExpectedReactance (k : ParamType) (c w : ℝ) : PFloat :=
  if w = 0 then (if k = .L then .fin 0 else .inf)
  else if k = .L then .fin (w * c)
  else .fin (1 / (w * c))

/-- Claim C5's consistency comparison: two infinite values are equal, a finite
and an infinite value are always inconsistent, two finite values are compared
with `math.isclose` at relative tolerance `1e-6` and absolute tolerance
`1e-9`. -/
def claimConsistent : PFloat → PFloat → Prop
  | .inf, .inf => True
  | .fin a, .fin e => isclose a e
  | _, _ => False

/-! ## Helper lemmas -/

/-- `math.isclose` holds between a value and itself. -/
lemma isclose_self (a : ℝ) : isclose a a := by
  simp only [isclose, sub_self, abs_zero, le_max_iff]
  right
  norm_num

/-- With all three values supplied and admissible signs, the deriver passes
the values through the (no-op) derivation step to the post-validation block
unchanged. -/
lemma derive_all_some (k : ParamType) (c w : ℝ) (x : PFloat)
    (hc : 0 ≤ c) (hw : 0 ≤ w) (hkc : k = .C → 0 < c) (hxn : ¬ x.Lt (.fin 0)) :
    calculate_derived_reactance_params (some (.fin c)) (some x) (some (.fin w)) k
      = match deriveValidate (some (.fin c)) (some x) (some (.fin w)) k with
        | .error e => .error e
        | .ok _ => .ok (some (.fin c), some x, some (.fin w)) := by
  have h1 : ¬ optLt0 (some (PFloat.fin c)) := by
    simp only [optLt0, PFloat.Lt]
    exact not_lt.mpr hc
  have h3 : ¬ optLt0 (some (PFloat.fin w)) := by
    simp only [optLt0, PFloat.Lt]
    exact not_lt.mpr hw
  have h4 : ¬ (k = .C ∧ optLe0 (some (PFloat.fin c))) := by
    rintro ⟨hk, hle⟩
    simp only [optLe0, PFloat.Le] at hle
    exact absurd hle (not_le.mpr (hkc hk))
  have h5 : ¬ countSome (some (PFloat.fin c)) (some x) (some (PFloat.fin w)) < 2 := by
    simp [countSome]
  have h2 : ¬ optLt0 (some x) := hxn
  simp only [calculate_derived_reactance_params]
  rw [if_neg h1, if_neg h2, if_neg h3, if_neg h4, if_neg h5]
  rfl

/-- For an admissible actual value and an expected value that is finite or
`+Infinity`, the code's consistency verdict coincides with the claim's
description of it. -/
lemma consistentChk_iff_claim (x e : PFloat) (hx : ValAdm x)
    (he : (∃ b, e = .fin b) ∨ e = .inf) :
    consistentChk x e ↔ claimConsistent x e := by
  rcases x with a | _ | _ | _
  · rcases he with ⟨b, rfl⟩ | rfl <;>
      simp [consistentChk, claimConsistent, finiteP, iscloseP]
  · rcases he with ⟨b, rfl⟩ | rfl <;>
      simp [consistentChk, claimConsistent, finiteP, iscloseP]
  · exact absurd hx (by simp [ValAdm])
  · exact absurd hx (by simp [ValAdm])

/-- The post-validation block on three populated values: it recomputes the
expected reactance (the claim's closed form) and errors exactly when the
consistency verdict fails. -/
lemma deriveValidate_all_some (k : ParamType) (c w : ℝ) (x : PFloat)
    (hkc : k = .C → 0 < c) :
    deriveValidate (some (.fin c)) (some x) (some (.fin w)) k
      = if consistentChk x (claimExpectedReactance k c w) then .ok ()
        else .error (.valueError (.inconsistent k x (claimExpectedReactance k c w))) := by
  have h4 : ¬ (k = .C ∧ (PFloat.fin c).Le (.fin 0)) := by
    rintro ⟨hk, hle⟩
    simp only [PFloat.Le] at hle
    exact absurd hle (not_le.mpr (hkc hk))
  by_cases hw0 : w = 0
  · have hce : claimExpectedReactance k c w = (if k = .L then .fin 0 else .inf) := by
      simp [claimExpectedReactance, hw0]
    rw [hce]
    simp only [deriveValidate]
    rw [if_neg h4, if_pos (show (PFloat.fin w).isZero by simp [PFloat.isZero, hw0])]
    rfl
  · cases k
    · have hce : claimExpectedReactance .L c w = .fin (w * c) := by
        simp [claimExpectedReactance, hw0]
      rw [hce]
      simp only [deriveValidate, PFloat.isZero, PFloat.mul, PFloat.Le]
      rw [if_neg hw0]
      rfl
    · have hcpos : (0 : ℝ) < c := hkc rfl
      have hwc : w * c ≠ 0 := mul_ne_zero hw0 (ne_of_gt hcpos)
      have hce : claimExpectedReactance .C c w = .fin (1 / (w * c)) := by
        simp [claimExpectedReactance, hw0]
      rw [hce]
      simp only [deriveValidate, PFloat.isZero, PFloat.mul, PFloat.Le, pdiv, PFloat.div,
        Except.map, true_and]
      rw [if_neg (not_le.mpr hcpos), if_neg hw0, if_neg hwc, if_neg hwc]
      rfl

/-- The deriver after its sign checks and input count pass (generic form). -/
lemma derive_main (oc ox ow : Option PFloat) (k : ParamType)
    (h1 : ¬ optLt0 oc) (h2 : ¬ optLt0 ox) (h3 : ¬ optLt0 ow)
    (h4 : ¬ (k = .C ∧ optLe0 oc)) (h5 : ¬ countSome oc ox ow < 2) :
    calculate_derived_reactance_params oc ox ow k
      = match catchZeroDiv (deriveStep oc ox ow k) with
        | .error e => .error e
        | .ok (dc, dx, dw) =>
            match deriveValidate dc dx dw k with
            | .error e => .error e
            | .ok _ => .ok (dc, dx, dw) := by
  simp only [calculate_derived_reactance_params]
  rw [if_neg h1, if_neg h2, if_neg h3, if_neg h4, if_neg h5]

/-- A successful run of the deriver: step succeeds and validation passes. -/
lemma derive_eval_ok (oc ox ow : Option PFloat) (k : ParamType)
    (dc dx dw : Option PFloat)
    (h1 : ¬ optLt0 oc) (h2 : ¬ optLt0 ox) (h3 : ¬ optLt0 ow)
    (h4 : ¬ (k = .C ∧ optLe0 oc)) (h5 : ¬ countSome oc ox ow < 2)
    (hstep : deriveStep oc ox ow k = .ok (dc, dx, dw))
    (hval : deriveValidate dc dx dw k = .ok ()) :
    calculate_derived_reactance_params oc ox ow k = .ok (dc, dx, dw) := by
  rw [derive_main oc ox ow k h1 h2 h3 h4 h5, hstep]
  show (match deriveValidate dc dx dw k with
        | Except.error e => Except.error e
        | Except.ok _ => Except.ok (dc, dx, dw)) = Except.ok (dc, dx, dw)
  rw [hval]

/-- Two equal finite values pass the consistency verdict. -/
lemma consistentChk_fin_self (a b : ℝ) (h : a = b) :
    consistentChk (.fin a) (.fin b) := by
  subst h
  exact ⟨Iff.rfl, Or.inr (isclose_self a)⟩

/-- Two infinite values pass the consistency verdict. -/
lemma consistentChk_inf_inf : consistentChk .inf .inf :=
  ⟨Iff.rfl, Or.inl (by simp [finiteP])⟩

/-- Validation succeeds on a populated consistent triple. -/
lemma deriveValidate_ok_of_consistent (k : ParamType) (c w : ℝ) (x : PFloat)
    (hkc : k = .C → 0 < c)
    (h : consistentChk x (claimExpectedReactance k c w)) :
    deriveValidate (some (.fin c)) (some x) (some (.fin w)) k = .ok () := by
  rw [deriveValidate_all_some k c w x hkc, if_pos h]

/-- Deriving the reactance of an inductor from component and omega:
`X_L = omega * L`, also at `omega = 0` where the code short-circuits to `0`. -/
lemma derive_L_comp_omega (c w : ℝ) (hc : 0 ≤ c) (hw : 0 ≤ w) :
    calculate_derived_reactance_params (some (.fin c)) none (some (.fin w)) .L
      = .ok (some (.fin c), some (.fin (w * c)), some (.fin w)) := by
  have h1 : ¬ optLt0 (some (PFloat.fin c)) := by
    simp only [optLt0, PFloat.Lt, not_lt]
    exact hc
  have h2 : ¬ optLt0 (none : Option PFloat) := by simp [optLt0]
  have h3 : ¬ optLt0 (some (PFloat.fin w)) := by
    simp only [optLt0, PFloat.Lt, not_lt]
    exact hw
  have h4 : ¬ (ParamType.L = ParamType.C ∧ optLe0 (some (PFloat.fin c))) := by simp
  have h5 : ¬ countSome (some (PFloat.fin c)) none (some (PFloat.fin w)) < 2 := by
    norm_num [countSome]
  have hkc : ParamType.L = ParamType.C → (0 : ℝ) < c := by
    intro h
    cases h
  refine derive_eval_ok _ _ _ _ _ _ _ h1 h2 h3 h4 h5 ?_ ?_
  · by_cases hw0 : w = 0
    · rw [hw0, zero_mul]
      simp [deriveStep, PFloat.isZero]
    · simp only [deriveStep]
      rw [if_neg (show ¬ (PFloat.fin w).isZero by simp [PFloat.isZero, hw0])]
      simp [PFloat.mul]
  · refine deriveValidate_ok_of_consistent .L c w _ hkc ?_
    by_cases hw0 : w = 0
    · rw [show claimExpectedReactance .L c w = .fin 0 by simp [claimExpectedReactance, hw0]]
      exact consistentChk_fin_self _ _ (by rw [hw0, zero_mul])
    · rw [show claimExpectedReactance .L c w = .fin (w * c) by
        simp [claimExpectedReactance, hw0]]
      exact consistentChk_fin_self _ _ rfl

/-- Deriving the reactance of a capacitor from component and omega at
`omega > 0`: `X_C = 1 / (omega * C)`. -/
lemma derive_C_comp_omega (c w : ℝ) (hc : 0 < c) (hw : 0 < w) :
    calculate_derived_reactance_params (some (.fin c)) none (some (.fin w)) .C
      = .ok (some (.fin c), some (.fin (1 / (w * c))), some (.fin w)) := by
  have h1 : ¬ optLt0 (some (PFloat.fin c)) := by
    simp only [optLt0, PFloat.Lt, not_lt]
    exact hc.le
  have h2 : ¬ optLt0 (none : Option PFloat) := by simp [optLt0]
  have h3 : ¬ optLt0 (some (PFloat.fin w)) := by
    simp only [optLt0, PFloat.Lt, not_lt]
    exact hw.le
  have h4 : ¬ (ParamType.C = ParamType.C ∧ optLe0 (some (PFloat.fin c))) := by
    rintro ⟨-, hle⟩
    simp only [optLe0, PFloat.Le] at hle
    exact absurd hle (not_le.mpr hc)
  have h5 : ¬ countSome (some (PFloat.fin c)) none (some (PFloat.fin w)) < 2 := by
    norm_num [countSome]
  have hwc : w * c ≠ 0 := by positivity
  refine derive_eval_ok _ _ _ _ _ _ _ h1 h2 h3 h4 h5 ?_ ?_
  · simp only [deriveStep]
    rw [if_neg (show ¬ (PFloat.fin w).isZero by simp [PFloat.isZero]; positivity),
      if_neg (show ¬ (ParamType.C = ParamType.L) by simp),
      if_neg (show ¬ (PFloat.fin c).isZero by simp [PFloat.isZero]; positivity)]
    simp only [PFloat.mul, pdiv]
    rw [if_neg (show ¬ (PFloat.fin (w * c)).isZero by simp [PFloat.isZero, hwc])]
    simp only [PFloat.div, Except.map]
    rw [if_neg hwc]
  · refine deriveValidate_ok_of_consistent .C c w _ (fun _ => hc) ?_
    rw [show claimExpectedReactance .C c w = .fin (1 / (w * c)) by
      simp [claimExpectedReactance, ne_of_gt hw]]
    exact consistentChk_fin_self _ _ rfl

/-- Deriving the reactance of a capacitor from component and omega at
`omega = 0`: the DC open circuit, `X_C = +Infinity`. -/
lemma derive_C_comp_omega_zero (c : ℝ) (hc : 0 < c) :
    calculate_derived_reactance_params (some (.fin c)) none (some (.fin 0)) .C
      = .ok (some (.fin c), some .inf, some (.fin 0)) := by
  have h1 : ¬ optLt0 (some (PFloat.fin c)) := by
    simp only [optLt0, PFloat.Lt, not_lt]
    exact hc.le
  have h2 : ¬ optLt0 (none : Option PFloat) := by simp [optLt0]
  have h3 : ¬ optLt0 (some (PFloat.fin (0 : ℝ))) := by
    simp [optLt0, PFloat.Lt]
  have h4 : ¬ (ParamType.C = ParamType.C ∧ optLe0 (some (PFloat.fin c))) := by
    rintro ⟨-, hle⟩
    simp only [optLe0, PFloat.Le] at hle
    exact absurd hle (not_le.mpr hc)
  have h5 : ¬ countSome (some (PFloat.fin c)) none (some (PFloat.fin (0 : ℝ))) < 2 := by
    norm_num [countSome]
  refine derive_eval_ok _ _ _ _ _ _ _ h1 h2 h3 h4 h5 ?_ ?_
  · simp [deriveStep, PFloat.isZero]
  · refine deriveValidate_ok_of_consistent .C c 0 _ (fun _ => hc) ?_
    rw [show claimExpectedReactance .C c 0 = .inf by simp [claimExpectedReactance]]
    exact consistentChk_inf_inf

/-- Deriving the component of an inductor from reactance and omega at
`omega > 0`: `L = X_L / omega`. -/
lemma derive_L_react_omega (x w : ℝ) (hx : 0 ≤ x) (hw : 0 < w) :
    calculate_derived_reactance_params none (some (.fin x)) (some (.fin w)) .L
      = .ok (some (.fin (x / w)), some (.fin x), some (.fin w)) := by
  have h1 : ¬ optLt0 (none : Option PFloat) := by simp [optLt0]
  have h2 : ¬ optLt0 (some (PFloat.fin x)) := by
    simp only [optLt0, PFloat.Lt, not_lt]
    exact hx
  have h3 : ¬ optLt0 (some (PFloat.fin w)) := by
    simp only [optLt0, PFloat.Lt, not_lt]
    exact hw.le
  have h4 : ¬ (ParamType.L = ParamType.C ∧ optLe0 (none : Option PFloat)) := by simp
  have h5 : ¬ countSome none (some (PFloat.fin x)) (some (PFloat.fin w)) < 2 := by
    norm_num [countSome]
  refine derive_eval_ok _ _ _ _ _ _ _ h1 h2 h3 h4 h5 ?_ ?_
  · simp only [deriveStep, if_true]
    rw [if_neg (show ¬ (PFloat.fin w).isZero by simp [PFloat.isZero]; positivity),
      if_neg (show ¬ (PFloat.fin w).isZero by simp [PFloat.isZero]; positivity)]
    simp only [pdiv]
    rw [if_neg (show ¬ (PFloat.fin w).isZero by simp [PFloat.isZero]; positivity)]
    simp only [PFloat.div, Except.map]
    rw [if_neg (ne_of_gt hw)]
  · refine deriveValidate_ok_of_consistent .L (x / w) w _ (by intro h; cases h) ?_
    rw [show claimExpectedReactance .L (x / w) w = .fin (w * (x / w)) by
      simp [claimExpectedReactance, ne_of_gt hw]]
    exact consistentChk_fin_self _ _ (by field_simp)

/-- Deriving the component of a capacitor from reactance and omega at
`omega > 0`, `X_C > 0`: `C = 1 / (omega * X_C)`. -/
lemma derive_C_react_omega (x w : ℝ) (hx : 0 < x) (hw : 0 < w) :
    calculate_derived_reactance_params none (some (.fin x)) (some (.fin w)) .C
      = .ok (some (.fin (1 / (w * x))), some (.fin x), some (.fin w)) := by
  have h1 : ¬ optLt0 (none : Option PFloat) := by simp [optLt0]
  have h2 : ¬ optLt0 (some (PFloat.fin x)) := by
    simp only [optLt0, PFloat.Lt, not_lt]
    exact hx.le
  have h3 : ¬ optLt0 (some (PFloat.fin w)) := by
    simp only [optLt0, PFloat.Lt, not_lt]
    exact hw.le
  have h4 : ¬ (ParamType.C = ParamType.C ∧ optLe0 (none : Option PFloat)) := by
    simp [optLe0]
  have h5 : ¬ countSome none (some (PFloat.fin x)) (some (PFloat.fin w)) < 2 := by
    norm_num [countSome]
  have hwx : w * x ≠ 0 := by positivity
  refine derive_eval_ok _ _ _ _ _ _ _ h1 h2 h3 h4 h5 ?_ ?_
  · simp only [deriveStep, if_true]
    rw [if_neg (show ¬ (PFloat.fin w).isZero by simp [PFloat.isZero]; positivity),
      if_neg (show ¬ (ParamType.C = ParamType.L) by simp),
      if_neg (show ¬ (PFloat.fin x).isZero by simp [PFloat.isZero]; positivity),
      if_neg (show ¬ (PFloat.fin w).isZero by simp [PFloat.isZero]; positivity)]
    simp only [PFloat.mul, pdiv]
    rw [if_neg (show ¬ (PFloat.fin (w * x)).isZero by simp [PFloat.isZero, hwx])]
    simp only [PFloat.div, Except.map]
    rw [if_neg hwx]
  · refine deriveValidate_ok_of_consistent .C (1 / (w * x)) w _
      (fun _ => by positivity) ?_
    rw [show claimExpectedReactance .C (1 / (w * x)) w = .fin (1 / (w * (1 / (w * x)))) by
      simp [claimExpectedReactance, ne_of_gt hw]]
    refine consistentChk_fin_self _ _ ?_
    rw [eq_div_iff (by positivity)]
    field_simp
    ring

/-- Deriving omega for an inductor from component and reactance at `L > 0`:
`omega = X_L / L`. -/
lemma derive_L_comp_react (c x : ℝ) (hc : 0 < c) (hx : 0 ≤ x) :
    calculate_derived_reactance_params (some (.fin c)) (some (.fin x)) none .L
      = .ok (some (.fin c), some (.fin x), some (.fin (x / c))) := by
  have h1 : ¬ optLt0 (some (PFloat.fin c)) := by
    simp only [optLt0, PFloat.Lt, not_lt]
    exact hc.le
  have h2 : ¬ optLt0 (some (PFloat.fin x)) := by
    simp only [optLt0, PFloat.Lt, not_lt]
    exact hx
  have h3 : ¬ optLt0 (none : Option PFloat) := by simp [optLt0]
  have h4 : ¬ (ParamType.L = ParamType.C ∧ optLe0 (some (PFloat.fin c))) := by simp
  have h5 : ¬ countSome (some (PFloat.fin c)) (some (PFloat.fin x)) none < 2 := by
    norm_num [countSome]
  refine derive_eval_ok _ _ _ _ _ _ _ h1 h2 h3 h4 h5 ?_ ?_
  · simp only [deriveStep, if_true]
    rw [if_neg (show ¬ (PFloat.fin c).isZero by simp [PFloat.isZero]; positivity)]
    simp only [pdiv]
    rw [if_neg (show ¬ (PFloat.fin c).isZero by simp [PFloat.isZero]; positivity)]
    simp only [PFloat.div, Except.map]
    rw [if_neg (ne_of_gt hc)]
  · refine deriveValidate_ok_of_consistent .L c (x / c) _ (by intro h; cases h) ?_
    by_cases hx0 : x = 0
    · rw [show claimExpectedReactance .L c (x / c) = .fin 0 by
        simp [claimExpectedReactance, hx0]]
      exact consistentChk_fin_self _ _ hx0
    · rw [show claimExpectedReactance .L c (x / c) = .fin (x / c * c) by
        simp [claimExpectedReactance, div_eq_zero_iff, hx0, ne_of_gt hc]]
      refine consistentChk_fin_self _ _ ?_
      field_simp

/-- Deriving omega for a capacitor from component and reactance at `C > 0`,
`0 < X_C` finite: `omega = 1 / (C * X_C)`. -/
lemma derive_C_comp_react (c x : ℝ) (hc : 0 < c) (hx : 0 < x) :
    calculate_derived_reactance_params (some (.fin c)) (some (.fin x)) none .C
      = .ok (some (.fin c), some (.fin x), some (.fin (1 / (c * x)))) := by
  have h1 : ¬ optLt0 (some (PFloat.fin c)) := by
    simp only [optLt0, PFloat.Lt, not_lt]
    exact hc.le
  have h2 : ¬ optLt0 (some (PFloat.fin x)) := by
    simp only [optLt0, PFloat.Lt, not_lt]
    exact hx.le
  have h3 : ¬ optLt0 (none : Option PFloat) := by simp [optLt0]
  have h4 : ¬ (ParamType.C = ParamType.C ∧ optLe0 (some (PFloat.fin c))) := by
    rintro ⟨-, hle⟩
    simp only [optLe0, PFloat.Le] at hle
    exact absurd hle (not_le.mpr hc)
  have h5 : ¬ countSome (some (PFloat.fin c)) (some (PFloat.fin x)) none < 2 := by
    norm_num [countSome]
  have hcx : c * x ≠ 0 := by positivity
  refine derive_eval_ok _ _ _ _ _ _ _ h1 h2 h3 h4 h5 ?_ ?_
  · simp only [deriveStep]
    rw [if_neg (show ¬ (ParamType.C = ParamType.L) by simp),
      if_neg (show ¬ (PFloat.fin c).Le (.fin 0) by
        simp only [PFloat.Le, not_le]; exact hc),
      if_neg (show ¬ (PFloat.fin x).isZero by simp [PFloat.isZero]; positivity),
      if_neg (show ¬ (PFloat.fin x = PFloat.inf) by simp)]
    simp only [PFloat.mul, pdiv]
    rw [if_neg (show ¬ (PFloat.fin (c * x)).isZero by simp [PFloat.isZero, hcx])]
    simp only [PFloat.div, Except.map]
    rw [if_neg hcx]
  · refine deriveValidate_ok_of_consistent .C c (1 / (c * x)) _ (fun _ => hc) ?_
    rw [show claimExpectedReactance .C c (1 / (c * x)) = .fin (1 / (1 / (c * x) * c)) by
      simp [claimExpectedReactance, hcx, ne_of_gt hc, ne_of_gt hx]]
    refine consistentChk_fin_self _ _ ?_
    rw [eq_comm, div_eq_iff (by positivity)]
    field_simp
    ring

/-- Decompose an admissible optional value. -/
lemma optAdm_cases {o : Option PFloat} (h : OptAdm o) :
    o = none ∨ (∃ t : ℝ, o = some (.fin t) ∧ 0 ≤ t) ∨ o = some .inf := by
  rcases o with _ | v
  · exact Or.inl rfl
  rcases v with t | _ | _ | _
  · exact Or.inr (Or.inl ⟨t, rfl, h⟩)
  · exact Or.inr (Or.inr rfl)
  · exact absurd h (by simp [OptAdm])
  · exact absurd h (by simp [OptAdm])

/-- Decompose an admissible populated value. -/
lemma valAdm_cases {v : PFloat} (h : OptAdm (some v)) :
    (∃ t : ℝ, v = .fin t ∧ 0 ≤ t) ∨ v = .inf := by
  rcases optAdm_cases h with h' | ⟨t, ht, h0⟩ | h'
  · cases h'
  · exact Or.inl ⟨t, Option.some.inj ht, h0⟩
  · exact Or.inr (Option.some.inj h')

/-- `pdiv` succeeds on a denominator that is not the float zero. -/
lemma pdiv_ok {a b : PFloat} (hnb : ¬ b.isZero) : pdiv a b = .ok (a.div b) := by
  rw [pdiv, if_neg hnb]

/-- A product of admissible nonzero values is admissible and nonzero. -/
lemma valAdm_mul_nz {a b : PFloat} (ha : ValAdm a) (hb : ValAdm b)
    (hna : ¬ a.isZero) (hnb : ¬ b.isZero) :
    ValAdm (a.mul b) ∧ ¬ (a.mul b).isZero := by
  rcases a with s | _ | _ | _
  · rcases b with t | _ | _ | _
    · simp only [PFloat.isZero] at hna hnb
      simp only [ValAdm] at ha hb
      simp only [PFloat.mul, ValAdm, PFloat.isZero]
      exact ⟨mul_nonneg ha hb, mul_ne_zero hna hnb⟩
    · simp only [PFloat.isZero] at hna
      simp only [ValAdm] at ha
      have hs : 0 < s := lt_of_le_of_ne ha (Ne.symm hna)
      simp only [PFloat.mul, if_neg hna, if_pos hs]
      simp [ValAdm, PFloat.isZero]
    · exact absurd hb (by simp [ValAdm])
    · exact absurd hb (by simp [ValAdm])
  · rcases b with t | _ | _ | _
    · simp only [PFloat.isZero] at hnb
      simp only [ValAdm] at hb
      have ht : 0 < t := lt_of_le_of_ne hb (Ne.symm hnb)
      simp only [PFloat.mul, if_neg hnb, if_pos ht]
      simp [ValAdm, PFloat.isZero]
    · simp [PFloat.mul, ValAdm, PFloat.isZero]
    · exact absurd hb (by simp [ValAdm])
    · exact absurd hb (by simp [ValAdm])
  · exact absurd ha (by simp [ValAdm])
  · exact absurd ha (by simp [ValAdm])

/-- `1 / b` for an admissible nonzero denominator is admissible. -/
lemma valAdm_one_div {b : PFloat} (hb : ValAdm b) (hnb : ¬ b.isZero) :
    ValAdm ((PFloat.fin 1).div b) := by
  rcases b with t | _ | _ | _
  · simp only [PFloat.isZero] at hnb
    simp only [ValAdm] at hb
    simp only [PFloat.div, if_neg hnb, ValAdm]
    have ht : 0 < t := lt_of_le_of_ne hb (Ne.symm hnb)
    positivity
  · simp [PFloat.div, ValAdm]
  · exact absurd hb (by simp [ValAdm])
  · exact absurd hb (by simp [ValAdm])

/-- A quotient of admissible values (denominator nonzero, not both infinite)
is admissible. -/
lemma valAdm_div {a b : PFloat} (ha : ValAdm a) (hb : ValAdm b)
    (hnb : ¬ b.isZero) (hni : ¬ (a = .inf ∧ b = .inf)) : ValAdm (a.div b) := by
  rcases a with s | _ | _ | _
  · rcases b with t | _ | _ | _
    · simp only [PFloat.isZero] at hnb
      simp only [ValAdm] at ha hb
      simp only [PFloat.div, if_neg hnb, ValAdm]
      have ht : 0 < t := lt_of_le_of_ne hb (Ne.symm hnb)
      positivity
    · simp [PFloat.div, ValAdm]
    · exact absurd hb (by simp [ValAdm])
    · exact absurd hb (by simp [ValAdm])
  · rcases b with t | _ | _ | _
    · simp only [PFloat.isZero] at hnb
      simp only [ValAdm] at hb
      have ht : 0 < t := lt_of_le_of_ne hb (Ne.symm hnb)
      simp only [PFloat.div, if_neg hnb, if_pos ht]
      simp [ValAdm]
    · exact absurd ⟨rfl, rfl⟩ hni
    · exact absurd hb (by simp [ValAdm])
    · exact absurd hb (by simp [ValAdm])
  · exact absurd ha (by simp [ValAdm])
  · exact absurd ha (by simp [ValAdm])

/-- Admissibility of a populated optional value is value admissibility. -/
lemma optAdm_some {v : PFloat} : OptAdm (some v) ↔ ValAdm v := by
  rcases v with t | _ | _ | _ <;> simp [OptAdm, ValAdm]

/-- Post-validation rejects the triple `(L = 0, X_L = nan, omega = inf)`:
the recomputed reactance `inf * 0` is `nan` and `isclose` fails on `nan`. -/
lemma deriveValidate_fail_zero_nan_inf :
    deriveValidate (some (.fin 0)) (some .nan) (some .inf) .L ≠ .ok () := by
  simp [deriveValidate, PFloat.isZero, PFloat.mul, consistentChk, finiteP, iscloseP,
    Except.bind]

/-- Post-validation rejects the triple `(L = nan, X_L = inf, omega = inf)`:
the recomputed reactance `inf * nan` is `nan`, which has a different
finiteness status than the actual `inf`. -/
lemma deriveValidate_fail_nan_inf_inf :
    deriveValidate (some .nan) (some .inf) (some .inf) .L ≠ .ok () := by
  simp [deriveValidate, PFloat.isZero, PFloat.mul, consistentChk, finiteP, iscloseP,
    Except.bind]

/-- Post-validation rejects the triple `(L = inf, X_L = inf, omega = nan)`. -/
lemma deriveValidate_fail_inf_inf_nan :
    deriveValidate (some .inf) (some .inf) (some .nan) .L ≠ .ok () := by
  simp [deriveValidate, PFloat.isZero, PFloat.mul, consistentChk, finiteP, iscloseP,
    Except.bind]

/-- A value that is admissible and not below-or-equal zero is nonzero. -/
lemma valAdm_not_le_zero_pos {v : PFloat} (hv : ValAdm v) (h : ¬ v.Le (.fin 0)) :
    ¬ v.isZero := by
  rcases v with t | _ | _ | _
  · simp only [PFloat.Le, not_le] at h
    simp only [PFloat.isZero]
    exact ne_of_gt h
  · simp [PFloat.isZero]
  · exact absurd hv (by simp [ValAdm])
  · exact absurd hv (by simp [ValAdm])

/-- `catchZeroDiv` returns a success only when the inner computation did. -/
lemma catchZeroDiv_ok {α : Type} {e : Except PyErr α} {a : α}
    (h : catchZeroDiv e = .ok a) : e = .ok a := by
  rcases e with err | v
  · rcases err with m | _
    · exact absurd h (by simp [catchZeroDiv])
    · exact absurd h (by simp [catchZeroDiv])
  · simpa [catchZeroDiv] using h

/-- The derivation step preserves admissibility of all three slots, provided
the produced triple also passes post-validation (which rules out the `nan`
outcomes of `inf * 0` and `inf / inf`). -/
lemma deriveStep_valid_adm {oc ox ow : Option PFloat} {k : ParamType}
    {dc dx dw : Option PFloat}
    (hc : OptAdm oc) (hx : OptAdm ox) (hw : OptAdm ow)
    (hstep : deriveStep oc ox ow k = .ok (dc, dx, dw))
    (hval : deriveValidate dc dx dw k = .ok ()) :
    OptAdm dc ∧ OptAdm dx ∧ OptAdm dw := by
  rcases oc with _ | cv
  · rcases ox with _ | xv
    · -- (none, none, _): pass-through
      simp only [deriveStep, Except.ok.injEq, Prod.mk.injEq] at hstep
      obtain ⟨rfl, rfl, rfl⟩ := hstep
      exact ⟨hc, hx, hw⟩
    · rcases ow with _ | wv
      · -- (none, some, none): pass-through
        simp only [deriveStep, Except.ok.injEq, Prod.mk.injEq] at hstep
        obtain ⟨rfl, rfl, rfl⟩ := hstep
        exact ⟨hc, hx, hw⟩
      · -- (none, some xv, some wv): component missing (lines 80-104)
        simp only [deriveStep] at hstep
        split at hstep
        · -- omega == 0
          split at hstep
          · split at hstep
            · simp only [Except.ok.injEq, Prod.mk.injEq] at hstep
              obtain ⟨rfl, rfl, rfl⟩ := hstep
              exact ⟨trivial, hx, hw⟩
            · exact absurd hstep (by simp)
          · exact absurd hstep (by simp)
        · rename_i hnw
          split at hstep
          · -- inductor: component = X / omega
            rename_i hkL
            rw [pdiv_ok hnw] at hstep
            simp only [Except.map, Except.ok.injEq, Prod.mk.injEq] at hstep
            obtain ⟨rfl, rfl, rfl⟩ := hstep
            refine ⟨?_, hx, hw⟩
            by_cases hii : xv = .inf ∧ wv = .inf
            · obtain ⟨rfl, rfl⟩ := hii
              subst hkL
              exfalso
              rw [show PFloat.inf.div .inf = PFloat.nan by simp [PFloat.div]] at hval
              exact deriveValidate_fail_nan_inf_inf hval
            · exact optAdm_some.mpr
                (valAdm_div (optAdm_some.mp hx) (optAdm_some.mp hw) hnw hii)
          · -- capacitor: component = 1 / (omega * X)
            split at hstep
            · exact absurd hstep (by simp)
            · rename_i hnx
              have hmul := valAdm_mul_nz (optAdm_some.mp hw) (optAdm_some.mp hx) hnw hnx
              rw [pdiv_ok hmul.2] at hstep
              simp only [Except.map, Except.ok.injEq, Prod.mk.injEq] at hstep
              obtain ⟨rfl, rfl, rfl⟩ := hstep
              exact ⟨optAdm_some.mpr (valAdm_one_div hmul.1 hmul.2), hx, hw⟩
  · rcases ox with _ | xv
    · rcases ow with _ | wv
      · -- (some, none, none): pass-through
        simp only [deriveStep, Except.ok.injEq, Prod.mk.injEq] at hstep
        obtain ⟨rfl, rfl, rfl⟩ := hstep
        exact ⟨hc, hx, hw⟩
      · -- (some cv, none, some wv): reactance missing (lines 70-78)
        simp only [deriveStep] at hstep
        split at hstep
        · -- omega == 0: reactance 0 (L) or inf (C)
          simp only [Except.ok.injEq, Prod.mk.injEq] at hstep
          obtain ⟨rfl, rfl, rfl⟩ := hstep
          refine ⟨hc, ?_, hw⟩
          split
          · simp [OptAdm]
          · simp [OptAdm]
        · rename_i hnw
          split at hstep
          · -- inductor: reactance = omega * L
            rename_i hkL
            simp only [Except.ok.injEq, Prod.mk.injEq] at hstep
            obtain ⟨rfl, rfl, rfl⟩ := hstep
            refine ⟨hc, ?_, hw⟩
            rcases valAdm_cases hw with ⟨wt, rfl, hwt⟩ | rfl
            · rcases valAdm_cases hc with ⟨st, rfl, hst⟩ | rfl
              · simp only [PFloat.mul, optAdm_some, ValAdm]
                exact mul_nonneg hwt hst
              · simp only [PFloat.isZero] at hnw
                have hwp : 0 < wt := lt_of_le_of_ne hwt (Ne.symm hnw)
                simp only [PFloat.mul, if_neg hnw, if_pos hwp]
                simp [OptAdm]
            · rcases valAdm_cases hc with ⟨st, rfl, hst⟩ | rfl
              · by_cases hst0 : st = 0
                · subst hst0
                  subst hkL
                  exfalso
                  rw [show PFloat.inf.mul (.fin 0) = PFloat.nan by
                    simp [PFloat.mul]] at hval
                  exact deriveValidate_fail_zero_nan_inf hval
                · have hsp : 0 < st := lt_of_le_of_ne hst (Ne.symm hst0)
                  simp only [PFloat.mul, if_neg hst0, if_pos hsp]
                  simp [OptAdm]
              · simp [PFloat.mul, OptAdm]
          · -- capacitor: reactance = 1 / (omega * C)
            split at hstep
            · exact absurd hstep (by simp)
            · rename_i hnc
              have hmul := valAdm_mul_nz (optAdm_some.mp hw) (optAdm_some.mp hc) hnw hnc
              rw [pdiv_ok hmul.2] at hstep
              simp only [Except.map, Except.ok.injEq, Prod.mk.injEq] at hstep
              obtain ⟨rfl, rfl, rfl⟩ := hstep
              exact ⟨hc, optAdm_some.mpr (valAdm_one_div hmul.1 hmul.2), hw⟩
    · rcases ow with _ | wv
      · -- (some cv, some xv, none): omega missing (lines 106-127)
        simp only [deriveStep] at hstep
        split at hstep
        · -- inductor
          rename_i hkL
          split at hstep
          · split at hstep
            · simp only [Except.ok.injEq, Prod.mk.injEq] at hstep
              obtain ⟨rfl, rfl, rfl⟩ := hstep
              exact ⟨hc, hx, trivial⟩
            · exact absurd hstep (by simp)
          · rename_i hnc
            rw [pdiv_ok hnc] at hstep
            simp only [Except.map, Except.ok.injEq, Prod.mk.injEq] at hstep
            obtain ⟨rfl, rfl, rfl⟩ := hstep
            refine ⟨hc, hx, ?_⟩
            by_cases hii : xv = .inf ∧ cv = .inf
            · obtain ⟨rfl, rfl⟩ := hii
              subst hkL
              exfalso
              rw [show PFloat.inf.div .inf = PFloat.nan by simp [PFloat.div]] at hval
              exact deriveValidate_fail_inf_inf_nan hval
            · exact optAdm_some.mpr
                (valAdm_div (optAdm_some.mp hx) (optAdm_some.mp hc) hnc hii)
        · -- capacitor
          split at hstep
          · exact absurd hstep (by simp)
          · rename_i hnle
            split at hstep
            · exact absurd hstep (by simp)
            · rename_i hnx
              split at hstep
              · simp only [Except.ok.injEq, Prod.mk.injEq] at hstep
                obtain ⟨rfl, rfl, rfl⟩ := hstep
                exact ⟨hc, hx, by simp [OptAdm]⟩
              · have hnc := valAdm_not_le_zero_pos (optAdm_some.mp hc) hnle
                have hmul := valAdm_mul_nz (optAdm_some.mp hc) (optAdm_some.mp hx) hnc hnx
                rw [pdiv_ok hmul.2] at hstep
                simp only [Except.map, Except.ok.injEq, Prod.mk.injEq] at hstep
                obtain ⟨rfl, rfl, rfl⟩ := hstep
                exact ⟨hc, hx, optAdm_some.mpr (valAdm_one_div hmul.1 hmul.2)⟩
      · -- (some, some, some): pass-through
        simp only [deriveStep, Except.ok.injEq, Prod.mk.injEq] at hstep
        obtain ⟨rfl, rfl, rfl⟩ := hstep
        exact ⟨hc, hx, hw⟩

/-- For admissible inputs, a successful derivation returns admissible slots:
each is absent, a non-negative real, or `+Infinity` — never `nan` or
`-Infinity`. -/
lemma derive_ok_adm {oc ox ow : Option PFloat} {k : ParamType}
    {dc dx dw : Option PFloat}
    (hc : OptAdm oc) (hx : OptAdm ox) (hw : OptAdm ow)
    (h : calculate_derived_reactance_params oc ox ow k = .ok (dc, dx, dw)) :
    OptAdm dc ∧ OptAdm dx ∧ OptAdm dw := by
  simp only [calculate_derived_reactance_params] at h
  split at h
  · exact absurd h (by simp)
  split at h
  · exact absurd h (by simp)
  split at h
  · exact absurd h (by simp)
  split at h
  · exact absurd h (by simp)
  split at h
  · -- fewer than two supplied: pass-through
    simp only [Except.ok.injEq, Prod.mk.injEq] at h
    obtain ⟨rfl, rfl, rfl⟩ := h
    exact ⟨hc, hx, hw⟩
  · obtain ⟨⟨a, b, c⟩, hcz⟩ : ∃ t, catchZeroDiv (deriveStep oc ox ow k) = .ok t := by
      rcases hres : catchZeroDiv (deriveStep oc ox ow k) with e | t
      · rw [hres] at h
        exact absurd h (by simp)
      · exact ⟨t, rfl⟩
    simp only [hcz] at h
    rcases hv : deriveValidate a b c k with e | u
    · simp only [hv] at h
      exact absurd h (by simp)
    · simp only [hv, Except.ok.injEq, Prod.mk.injEq] at h
      obtain ⟨rfl, rfl, rfl⟩ := h
      exact deriveStep_valid_adm hc hx hw (catchZeroDiv_ok hcz) hv

/-- A successful series-AC solve passed the sign checks and decomposes into a
successful derivation followed by a successful finish. -/
lemma seriesAC_ok_destruct {V R : ℝ} {oc ox f : Option PFloat} {ct : CircuitType}
    {r : SeriesACResult}
    (h : calculate_series_ac_circuit V R oc ox f ct = .ok r) :
    0 ≤ V ∧ 0 ≤ R ∧ ¬ optLt0 f ∧
      ∃ fc fx fw,
        calculate_derived_reactance_params oc ox (f.map (fun fv => twoPiF.mul fv))
            (if ct = .RL then ParamType.L else ParamType.C) = .ok (fc, fx, fw) ∧
        seriesACFinish V R oc ox f ct fc fx fw = .ok r := by
  simp only [calculate_series_ac_circuit] at h
  split at h
  · exact absurd h (by simp)
  split at h
  · exact absurd h (by simp)
  split at h
  · exact absurd h (by simp)
  rename_i h1 h2 h3
  rcases hd : calculate_derived_reactance_params oc ox (f.map (fun fv => twoPiF.mul fv))
      (if ct = .RL then ParamType.L else ParamType.C) with e | t
  · rcases e with m | _
    · simp only [hd] at h
      exact absurd h (by simp)
    · simp only [hd] at h
      exact absurd h (by simp)
  · obtain ⟨fc, fx, fw⟩ := t
    simp only [hd] at h
    exact ⟨not_lt.mp h1, not_lt.mp h2, h3, fc, fx, fw, rfl, h⟩

/-- The finish stage raises the insufficient-parameters error exactly under
the claimed condition. -/
lemma finish_insufficient (V R : ℝ) (oc ox f : Option PFloat) (ct : CircuitType)
    (fc fx fw : Option PFloat)
    (hcond : fx = none ∨ (fw = none ∧ ¬ (ct = .RC ∧ fx = some PFloat.inf))) :
    seriesACFinish V R oc ox f ct fc fx fw
      = .error (.valueError (.insufficientParams ct)) := by
  simp only [seriesACFinish]
  rw [if_pos hcond]

/-- The finish stage on the accepted RC DC-open case: reactance `+Infinity`
with no determined omega is solved with `f = omega = 0`. -/
lemma finish_dc_open (V R : ℝ) (oc ox f : Option PFloat) (fc : Option PFloat) :
    ∃ r, seriesACFinish V R oc ox f .RC fc (some .inf) none = .ok r ∧
      r.f = some (.fin 0) ∧ r.omega = some (.fin 0) ∧ r.X = .inf := by
  simp only [seriesACFinish]
  rw [if_neg (by simp)]
  simp only [reduceIte]
  exact ⟨_, rfl, rfl, rfl, rfl⟩

/-- Admissible values are numbers (finite or `+Infinity`). -/
lemma valAdm_isNum {v : PFloat} (h : ValAdm v) : v.IsNum := by
  rcases v with t | _ | _ | _ <;> simp_all [ValAdm, PFloat.IsNum]

/-- Admissible optional values are numbers. -/
lemma optAdm_optNum {o : Option PFloat} (h : OptAdm o) : OptNum o := by
  rcases o with _ | v
  · trivial
  · exact valAdm_isNum (optAdm_some.mp h)

/-- An input echoed under a circuit-type test is a number. -/
lemma optNum_ite_input (c : Prop) [Decidable c] {o : Option PFloat} (ho : OptAdm o) :
    OptNum (if c then o else none) := by
  split
  · exact optAdm_optNum ho
  · trivial

/-- Dividing an admissible value by the constant `2*pi` yields a number. -/
lemma div_twoPi_num {w : PFloat} (hw : ValAdm w) : (w.div twoPiF).IsNum := by
  have h2 : twoPiR ≠ 0 := by
    simp only [twoPiR]
    positivity
  have h2p : 0 < twoPiR := by
    simp only [twoPiR]
    positivity
  rcases w with t | _ | _ | _
  · simp only [twoPiF, PFloat.div, if_neg h2, PFloat.IsNum]
  · simp only [twoPiF, PFloat.div, if_neg h2, if_pos h2p, PFloat.IsNum]
  · exact absurd hw (by simp [ValAdm])
  · exact absurd hw (by simp [ValAdm])

/-- The peak current expression is a number when the RMS current is finite or
`+Infinity`. -/
lemma ipeak_num {I : PFloat} (hI : (∃ t, I = .fin t) ∨ I = .inf) (s : ℝ) :
    (if I ≠ .inf then I.mul (.fin s) else .inf).IsNum := by
  rcases hI with ⟨t, rfl⟩ | rfl
  · rw [if_pos (by simp)]
    simp [PFloat.mul, PFloat.IsNum]
  · rw [if_neg (by simp)]
    trivial

/-- The voltage-drop expression is a number when the RMS current is finite or
`+Infinity` and the multiplier is finite. -/
lemma vdrop_num {I m : PFloat} (hI : (∃ t, I = .fin t) ∨ I = .inf)
    (hm : ∃ t, m = .fin t) (c : Prop) [Decidable c] :
    (if I ≠ .inf then I.mul m else if c then PFloat.inf else .fin 0).IsNum := by
  obtain ⟨s, rfl⟩ := hm
  rcases hI with ⟨t, rfl⟩ | rfl
  · rw [if_pos (by simp)]
    simp [PFloat.mul, PFloat.IsNum]
  · rw [if_neg (by simp)]
    split <;> trivial

/-- Mapping `fv -> 2*pi*fv` over an admissible optional input stays
admissible. -/
lemma optAdm_map_twoPi {f : Option PFloat} (hf : OptAdm f) :
    OptAdm (f.map (fun fv => twoPiF.mul fv)) := by
  have h2 : twoPiR ≠ 0 := by
    simp only [twoPiR]
    positivity
  have h2p : 0 < twoPiR := by
    simp only [twoPiR]
    positivity
  rcases optAdm_cases hf with rfl | ⟨t, rfl, ht⟩ | rfl
  · simp [OptAdm]
  · simp only [Option.map, twoPiF, PFloat.mul, optAdm_some, ValAdm]
    positivity
  · simp only [Option.map, twoPiF, PFloat.mul, if_neg h2, if_pos h2p]
    simp [OptAdm]

/-- When the final reactance in a successful series-AC finish is `+Infinity`,
the open-circuit outputs are produced (lines 264-269). -/
lemma finish_X_inf {V R : ℝ} {oc ox f : Option PFloat} {ct : CircuitType}
    {fc fx fw : Option PFloat} {r : SeriesACResult}
    (h : seriesACFinish V R oc ox f ct fc fx fw = .ok r) (hX : r.X = .inf) :
    r.Z = .inf ∧ r.phi = .fin (-90) ∧ r.I_rms = .fin 0 ∧ r.V_rms_R = .fin 0 ∧
      r.V_rms_X = .fin V := by
  simp only [seriesACFinish] at h
  split at h
  · exact absurd h (by simp)
  split at h
  · exact absurd h (by simp)
  rename_i X
  split at h
  · obtain rfl := Except.ok.inj h
    exact ⟨rfl, rfl, rfl, rfl, rfl⟩
  · rename_i hne
    split at h
    · obtain rfl := Except.ok.inj h
      exact absurd hX hne
    · obtain rfl := Except.ok.inj h
      exact absurd hX hne

/-- The phase of a successful series-AC finish is `-90`, `0`, or the
degrees-of-atan2 of the signed reactance over the resistance. -/
lemma finish_phi {V R : ℝ} {oc ox f : Option PFloat} {ct : CircuitType}
    {fc fx fw : Option PFloat} {r : SeriesACResult}
    (h : seriesACFinish V R oc ox f ct fc fx fw = .ok r) :
    r.phi = .fin (-90) ∨ r.phi = .fin 0 ∨
      ∃ X, fx = some X ∧ X ≠ .inf ∧
        r.phi = pdeg (patan2R (if ct = .RC then X.neg else X) R) := by
  simp only [seriesACFinish] at h
  split at h
  · exact absurd h (by simp)
  split at h
  · exact absurd h (by simp)
  rename_i X hcond
  split at h
  · obtain rfl := Except.ok.inj h
    exact Or.inl rfl
  · rename_i hne
    split at h
    · obtain rfl := Except.ok.inj h
      exact Or.inr (Or.inl rfl)
    · obtain rfl := Except.ok.inj h
      exact Or.inr (Or.inr ⟨X, rfl, hne, rfl⟩)

/-- Bounds on `degrees(atan2(-x, Rv))` for non-negative `Rv` and `x`: the
principal argument of `Rv - x*i` lies in `[-pi/2, 0]`. -/
lemma phi_bound (Rv x : ℝ) (hR : 0 ≤ Rv) (hx : 0 ≤ x) :
    -90 ≤ degreesR (Complex.arg ⟨Rv, -x⟩) ∧ degreesR (Complex.arg ⟨Rv, -x⟩) ≤ 0 := by
  have hπ : (0 : ℝ) < Real.pi := Real.pi_pos
  have hre : (0 : ℝ) ≤ (⟨Rv, -x⟩ : ℂ).re := hR
  have harg_ge : -(Real.pi / 2) ≤ Complex.arg ⟨Rv, -x⟩ :=
    (abs_le.mp (Complex.abs_arg_le_pi_div_two_iff.mpr hre)).1
  have harg_le : Complex.arg ⟨Rv, -x⟩ ≤ 0 := by
    rcases lt_or_eq_of_le (neg_nonpos.mpr hx) with hlt | heq
    · exact le_of_lt (Complex.arg_neg_iff.mpr hlt)
    · have hz : (⟨Rv, -x⟩ : ℂ) = (Rv : ℂ) := by
        apply Complex.ext
        · simp
        · simpa using heq
      rw [hz, Complex.arg_ofReal_of_nonneg hR]
  constructor
  · simp only [degreesR]
    rw [le_div_iff₀ hπ]
    nlinarith [harg_ge]
  · simp only [degreesR]
    rw [div_nonpos_iff]
    right
    exact ⟨by nlinarith [harg_le], hπ.le⟩

/-- Evaluation of the spec's DC-open-circuit example:
`solve(V_rms=10, R=100, component=1e-6, reactance=None, frequency=0, kind=RC)`
succeeds with infinite final reactance. -/
lemma evalRC_dc_example :
    ∃ r, calculate_series_ac_circuit 10 100 (some (.fin (1 / 1000000))) none
        (some (.fin 0)) .RC = .ok r ∧ r.X = .inf := by
  have h0 : twoPiR * 0 = 0 := by ring
  have hderive : calculate_derived_reactance_params (some (.fin (1 / 1000000))) none
      (some (.fin (twoPiR * 0))) ParamType.C
      = .ok (some (.fin (1 / 1000000)), some .inf, some (.fin (twoPiR * 0))) := by
    rw [h0]
    exact derive_C_comp_omega_zero (1 / 1000000) (by norm_num)
  have hsolve : calculate_series_ac_circuit 10 100 (some (.fin (1 / 1000000))) none
      (some (.fin 0)) .RC
      = seriesACFinish 10 100 (some (.fin (1 / 1000000))) none (some (.fin 0)) .RC
          (some (.fin (1 / 1000000))) (some .inf) (some (.fin (twoPiR * 0))) := by
    simp only [calculate_series_ac_circuit]
    rw [if_neg (by norm_num), if_neg (by norm_num),
      if_neg (by simp [optLt0, PFloat.Lt])]
    simp only [Option.map, twoPiF, PFloat.mul]
    simp only [show (CircuitType.RC = CircuitType.RL) = False by simp, if_false]
    simp only [hderive]
  rw [hsolve]
  simp only [seriesACFinish]
  rw [if_neg (by simp)]
  simp only [reduceCtorEq, reduceIte]
  exact ⟨_, rfl, rfl⟩

/-- A value that is finite or `+Infinity` is a number. -/
lemma isNum_of_shape {v : PFloat} (h : (∃ t, v = .fin t) ∨ v = .inf) : v.IsNum := by
  rcases h with ⟨t, rfl⟩ | rfl <;> trivial

/-- Every value of a successful series-RLC result is finite or `+Infinity`. -/
lemma seriesRLC_ok_num {V R L C f : ℝ} {r : SeriesRLCResult}
    (h : calculate_series_rlc_circuit V R L C f = .ok r) : SeriesRLCResultNum r := by
  simp only [calculate_series_rlc_circuit] at h
  split at h
  · exact absurd h (by simp)
  split at h
  · exact absurd h (by simp)
  rcases hdv : rdiv 1 (twoPiR * f * C) with e | xc
  · simp only [hdv, Except.bind] at h
    exact absurd h (by simp)
  · simp only [hdv, Except.bind] at h
    obtain rfl := Except.ok.inj h
    have hI : (∃ t, (if hypotR R (twoPiR * f * L - xc) = 0 then
          (if 0 < V then PFloat.inf else .fin 0)
          else PFloat.fin (V / hypotR R (twoPiR * f * L - xc))) = PFloat.fin t) ∨
        (if hypotR R (twoPiR * f * L - xc) = 0 then
          (if 0 < V then PFloat.inf else .fin 0)
          else PFloat.fin (V / hypotR R (twoPiR * f * L - xc))) = PFloat.inf := by
      by_cases hz : hypotR R (twoPiR * f * L - xc) = 0
      · rw [if_pos hz]
        split
        · exact Or.inr rfl
        · exact Or.inl ⟨0, rfl⟩
      · rw [if_neg hz]
        exact Or.inl ⟨_, rfl⟩
    exact ⟨isNum_of_shape hI, ipeak_num hI _, ipeak_num hI _, ipeak_num hI _,
      ipeak_num hI _⟩

/-- Every value of a successful parallel-RLC result is finite or
`+Infinity`. -/
lemma parallel_ok_num {V R L C f : ℝ} {r : ParallelRLCResult}
    (h : calculate_parallel_rlc_circuit V R L C f = .ok r) :
    ParallelRLCResultNum r := by
  simp only [calculate_parallel_rlc_circuit] at h
  split at h
  · exact absurd h (by simp)
  split at h
  · exact absurd h (by simp)
  rcases hdv : rdiv 1 (twoPiR * f * C) with e | xc
  · simp only [hdv, Except.bind] at h
    exact absurd h (by simp)
  simp only [hdv, Except.bind] at h
  rcases h1 : cinv ⟨R, 0⟩ with e | yR
  · simp only [h1, Except.bind] at h
    exact absurd h (by simp)
  simp only [h1, Except.bind] at h
  rcases h2 : cinv ⟨0, twoPiR * f * L⟩ with e | yL
  · simp only [h2, Except.bind] at h
    exact absurd h (by simp)
  simp only [h2, Except.bind] at h
  rcases h3 : cinv ⟨0, -xc⟩ with e | yC
  · simp only [h3, Except.bind] at h
    exact absurd h (by simp)
  simp only [h3, Except.bind] at h
  split at h
  · exact absurd h (by simp)
  · rename_i v heq
    obtain rfl := Except.ok.inj h
    have hv1 : v.1 = PFloat.inf ∨ ∃ a, v.1 = PFloat.fin a := by
      split at heq
      · obtain rfl := Except.ok.inj heq
        exact Or.inl rfl
      · rcases h4 : cinv (yR + yL + yC) with e | zt
        · rw [h4] at heq
          exact absurd heq (by simp [Except.map])
        · rw [h4] at heq
          have hz := Except.ok.inj heq
          exact Or.inr ⟨Complex.abs zt, by rw [← hz]⟩
    have hI : (∃ t, (if v.1.isZero then (if 0 < V then PFloat.inf else .fin 0)
          else (PFloat.fin V).div v.1) = PFloat.fin t) ∨
        (if v.1.isZero then (if 0 < V then PFloat.inf else .fin 0)
          else (PFloat.fin V).div v.1) = PFloat.inf := by
      rcases hv1 with h1' | ⟨a, h1'⟩
      · rw [h1', if_neg (by simp [PFloat.isZero])]
        exact Or.inl ⟨0, by simp [PFloat.div]⟩
      · rw [h1']
        by_cases ha : a = 0
        · rw [if_pos (by simp [PFloat.isZero, ha])]
          split
          · exact Or.inr rfl
          · exact Or.inl ⟨0, rfl⟩
        · rw [if_neg (by simp [PFloat.isZero, ha])]
          simp only [PFloat.div, if_neg ha]
          exact Or.inl ⟨_, rfl⟩
    refine ⟨?_, isNum_of_shape hI, ipeak_num hI _, ?_, ?_, ?_⟩
    · rcases hv1 with h1' | ⟨a, h1'⟩ <;> rw [h1'] <;> trivial
    · show (if R ≠ 0 then PFloat.fin (V / R) else PFloat.inf).IsNum
      split <;> trivial
    · show (if twoPiR * f * L ≠ 0 then PFloat.fin (V / (twoPiR * f * L))
          else PFloat.inf).IsNum
      split <;> trivial
    · show (if xc ≠ 0 then PFloat.fin (V / xc) else PFloat.inf).IsNum
      split <;> trivial

/-- Every value in the mapping returned by a successful series-AC finish with
admissible derived values and admissible raw inputs is absent, finite, or
`+Infinity`. -/
lemma finish_num {V R : ℝ} {oc ox f : Option PFloat} {ct : CircuitType}
    {fc fx fw : Option PFloat} {r : SeriesACResult}
    (hfc : OptAdm fc) (hfx : OptAdm fx) (hfw : OptAdm fw)
    (hcadm : OptAdm oc) (hxadm : OptAdm ox) (hfadm : OptAdm f)
    (h : seriesACFinish V R oc ox f ct fc fx fw = .ok r) :
    SeriesACResultNum r := by
  rcases fw with _ | wv
  · -- no determined omega: only the DC-open case can succeed
    simp only [seriesACFinish] at h
    split at h
    · exact absurd h (by simp)
    split at h
    · exact absurd h (by simp)
    rename_i X hcond
    have hdc : ct = .RC ∧ some X = some PFloat.inf := by
      have hB : (none : Option PFloat) = none := rfl
      tauto
    have hXinf : X = PFloat.inf := Option.some.inj hdc.2
    subst hXinf
    split at h
    · obtain rfl := Except.ok.inj h
      refine ⟨trivial, trivial, optAdm_optNum hfc, trivial, trivial, trivial, trivial,
        ?_, trivial, trivial, optNum_ite_input _ hcadm, optNum_ite_input _ hcadm,
        optNum_ite_input _ hxadm, optNum_ite_input _ hxadm, optAdm_optNum hfadm⟩
      show (if (PFloat.fin 0 : PFloat) ≠ .inf
          then (PFloat.fin 0).mul (.fin sqrt2R) else PFloat.inf).IsNum
      exact ipeak_num (Or.inl ⟨0, rfl⟩) _
    · rename_i hne
      exact absurd rfl hne
  · -- omega determined: `final_f = omega / (2*pi)`
    have hwadm : ValAdm wv := optAdm_some.mp hfw
    simp only [seriesACFinish] at h
    split at h
    · exact absurd h (by simp)
    split at h
    · exact absurd h (by simp)
    rename_i X hcond
    have hXadm : ValAdm X := optAdm_some.mp hfx
    have hffn : OptNum (some (wv.div twoPiF)) := div_twoPi_num hwadm
    have hfon : OptNum (some wv) := valAdm_isNum hwadm
    split at h
    · -- infinite reactance
      obtain rfl := Except.ok.inj h
      refine ⟨hffn, hfon, optAdm_optNum hfc, valAdm_isNum hXadm, trivial, trivial,
        trivial, ?_, trivial, trivial, optNum_ite_input _ hcadm,
        optNum_ite_input _ hcadm, optNum_ite_input _ hxadm, optNum_ite_input _ hxadm,
        optAdm_optNum hfadm⟩
      show (if (PFloat.fin 0 : PFloat) ≠ .inf
          then (PFloat.fin 0).mul (.fin sqrt2R) else PFloat.inf).IsNum
      exact ipeak_num (Or.inl ⟨0, rfl⟩) _
    · rename_i hne
      split at h
      · -- zero impedance
        obtain rfl := Except.ok.inj h
        have hI : (∃ t, (if 0 < V then PFloat.inf else PFloat.fin 0) = PFloat.fin t) ∨
            (if 0 < V then PFloat.inf else PFloat.fin 0) = PFloat.inf := by
          split
          · exact Or.inr rfl
          · exact Or.inl ⟨0, rfl⟩
        refine ⟨hffn, hfon, optAdm_optNum hfc, valAdm_isNum hXadm, trivial, trivial,
          isNum_of_shape hI, ipeak_num hI _, trivial, trivial,
          optNum_ite_input _ hcadm, optNum_ite_input _ hcadm,
          optNum_ite_input _ hxadm, optNum_ite_input _ hxadm, optAdm_optNum hfadm⟩
      · -- general case
        obtain rfl := Except.ok.inj h
        rcases X with xt | _ | _ | _
        · have hxt : 0 ≤ xt := hXadm
          have hI : (∃ t, (if (phypotR R (.fin xt)).isZero then
                (if 0 < V then PFloat.inf else PFloat.fin 0)
                else (PFloat.fin V).div (phypotR R (.fin xt))) = PFloat.fin t) ∨
              (if (phypotR R (.fin xt)).isZero then
                (if 0 < V then PFloat.inf else PFloat.fin 0)
                else (PFloat.fin V).div (phypotR R (.fin xt))) = PFloat.inf := by
            by_cases hz : (phypotR R (.fin xt)).isZero
            · rw [if_pos hz]
              split
              · exact Or.inr rfl
              · exact Or.inl ⟨0, rfl⟩
            · rw [if_neg hz]
              simp only [phypotR, PFloat.isZero] at hz
              simp only [phypotR, PFloat.div, if_neg hz]
              exact Or.inl ⟨_, rfl⟩
          refine ⟨hffn, hfon, optAdm_optNum hfc, trivial, ?_, ?_,
            isNum_of_shape hI, ipeak_num hI _, vdrop_num hI ⟨R, rfl⟩ _,
            vdrop_num hI ⟨xt, rfl⟩ _, optNum_ite_input _ hcadm,
            optNum_ite_input _ hcadm, optNum_ite_input _ hxadm,
            optNum_ite_input _ hxadm, optAdm_optNum hfadm⟩
          · show (phypotR R (.fin xt)).IsNum
            simp [phypotR, PFloat.IsNum]
          · show (pdeg (patan2R (if ct = .RC then (PFloat.fin xt).neg else .fin xt)
                R)).IsNum
            split <;> simp [PFloat.neg, patan2R, pdeg, PFloat.IsNum]
        · exact absurd rfl hne
        · exact absurd hXadm (by simp [ValAdm])
        · exact absurd hXadm (by simp [ValAdm])

/-- The series-RLC solver succeeds at the spec's example input. -/
lemma seriesRLC_example_ok :
    ∃ r, calculate_series_rlc_circuit 10 10 (1 / 20) (1 / 1000000) 1000 = .ok r := by
  have hωC : twoPiR * 1000 * (1 / 1000000) ≠ 0 := by
    simp only [twoPiR]
    positivity
  simp only [calculate_series_rlc_circuit, rdiv]
  rw [if_neg (by norm_num), if_neg (by norm_num), if_neg hωC]
  simp only [Except.bind]
  exact ⟨_, rfl⟩

/-- The parallel-RLC solver succeeds at the spec's example input (with
`R = 100 > 0` every complex reciprocal is defined and the total admittance
has positive real part). -/
lemma parallel_example_ok :
    ∃ r, calculate_parallel_rlc_circuit 10 100 (1 / 10) (1 / 100000) 1000 = .ok r := by
  have hωC : twoPiR * 1000 * (1 / 100000) ≠ 0 := by
    simp only [twoPiR]
    positivity
  have hXL : twoPiR * 1000 * (1 / 10) ≠ 0 := by
    simp only [twoPiR]
    positivity
  have hXC : (1 : ℝ) / (twoPiR * 1000 * (1 / 100000)) ≠ 0 := by
    simp only [twoPiR]
    positivity
  have hZR : (⟨100, 0⟩ : ℂ) ≠ 0 := by
    simp [Complex.ext_iff]
  have h2π : twoPiR ≠ 0 := by
    simp only [twoPiR]
    positivity
  have hZL : (⟨0, twoPiR * 1000 * (1 / 10)⟩ : ℂ) ≠ 0 := by
    simp [Complex.ext_iff, hXL, h2π]
  have hZC : (⟨0, -(1 / (twoPiR * 1000 * (1 / 100000)))⟩ : ℂ) ≠ 0 := by
    simp [Complex.ext_iff, hXC, h2π]
  have hY : (⟨100, 0⟩ : ℂ)⁻¹ + (⟨0, twoPiR * 1000 * (1 / 10)⟩ : ℂ)⁻¹
      + (⟨0, -(1 / (twoPiR * 1000 * (1 / 100000)))⟩ : ℂ)⁻¹ ≠ 0 := by
    intro hY0
    have hre := congrArg Complex.re hY0
    simp [Complex.add_re, Complex.inv_re, Complex.normSq_mk] at hre
  simp only [calculate_parallel_rlc_circuit, rdiv, cinv]
  rw [if_neg (by norm_num), if_neg (by norm_num), if_neg hωC]
  simp only [Except.bind]
  rw [if_neg hZR]
  simp only [Except.bind]
  rw [if_neg hZL]
  simp only [Except.bind]
  rw [if_neg hZC]
  simp only [Except.bind]
  rw [if_neg hY, if_neg hY]
  simp only [Except.map, Except.bind]
  exact ⟨_, rfl⟩

/-- C2: `equivalent_capacitance` and `equivalent_inductance` fail with the
validation `ValueError` whenever any entry is non-positive; for strictly
positive values, parallel capacitance and series inductance are the sum,
series capacitance and parallel inductance the reciprocal of the sum of
reciprocals; and `equivalent_capacitance([1e-6, 2e-6, 3e-6], parallel)` is
(exactly, hence approximately) `6e-6`.  (The combiner is modelled from the
spec: it is absent from `src/`.) -/
theorem C2_equivalent_components :
    (∀ (values : List ℝ) (arrangement : Arrangement), (∃ v ∈ values, v ≤ 0) →
        equivalent_capacitance values arrangement
            = .error (.valueError .nonPositiveComponentValue) ∧
        equivalent_inductance values arrangement
            = .error (.valueError .nonPositiveComponentValue))
  ∧ (∀ values : List ℝ, (∀ v ∈ values, 0 < v) →
        equivalent_capacitance values .parallel = .ok values.sum ∧
        equivalent_inductance values .series = .ok values.sum ∧
        equivalent_capacitance values .series
            = .ok (1 / (values.map (fun v => 1 / v)).sum) ∧
        equivalent_inductance values .parallel
            = .ok (1 / (values.map (fun v => 1 / v)).sum))
  ∧ equivalent_capacitance [1 / 1000000, 2 / 1000000, 3 / 1000000] .parallel
      = .ok (6 / 1000000) := by
  refine ⟨?_, ?_, ?_⟩
  · intro vs arr h
    constructor <;> simp only [equivalent_capacitance, equivalent_inductance, if_pos h]
  · intro vs h
    have hno : ¬ ∃ v ∈ vs, v ≤ 0 := by
      rintro ⟨v, hv, hle⟩
      exact absurd (h v hv) (not_lt.mpr hle)
    exact ⟨by simp only [equivalent_capacitance, if_neg hno],
      by simp only [equivalent_inductance, if_neg hno],
      by simp only [equivalent_capacitance, if_neg hno],
      by simp only [equivalent_inductance, if_neg hno]⟩
  · have hno : ¬ ∃ v ∈ ([1 / 1000000, 2 / 1000000, 3 / 1000000] : List ℝ), v ≤ 0 := by
      norm_num
    simp only [equivalent_capacitance, if_neg hno, List.sum_cons, List.sum_nil]
    norm_num

/-- C2 witness: the validation failure and the series-inductance sum at
concrete inputs. -/
theorem C2_equivalent_components_witness :
    equivalent_capacitance [(1 : ℝ), -2] .series
        = .error (.valueError .nonPositiveComponentValue) ∧
    equivalent_inductance [(1 : ℝ) / 1000, 2 / 1000, 3 / 1000] .series
        = .ok ([(1 : ℝ) / 1000, 2 / 1000, 3 / 1000] : List ℝ).sum := by
  refine ⟨(C2_equivalent_components.1 [(1 : ℝ), -2] .series ⟨-2, by norm_num, by norm_num⟩).1,
    (C2_equivalent_components.2.1 [(1 : ℝ) / 1000, 2 / 1000, 3 / 1000] ?_).2.1⟩
  intro v hv
  simp only [List.mem_cons, List.not_mem_nil, or_false] at hv
  rcases hv with h | h | h <;> rw [h] <;> norm_num

/-- C1: at `R = 0` (admitted by the preconditions, which require positivity
only of `L`, `C`, `f`), the branch admittance `1 / Z_R` is a complex division
by zero and the parallel solver raises an uncaught `ZeroDivisionError` — not
the single `ValueError` category the spec requires for calculation failures
(and the repository's own test `test_parallel_rlc_zero_resistance_short`
even expects this call to succeed with `Z = 0`). -/
theorem C1_parallel_zero_R_raises_zero_division :
    calculate_parallel_rlc_circuit 5 0 (1 / 10) (1 / 1000000) 1000
      = .error .zeroDivisionError := by
  have hω : twoPiR * 1000 * (1 / 1000000) ≠ 0 := by
    simp only [twoPiR]
    positivity
  simp only [calculate_parallel_rlc_circuit, rdiv, cinv]
  rw [if_neg (by norm_num), if_neg (by norm_num), if_neg hω]
  simp only [Except.bind]
  rw [if_pos (by simp [Complex.ext_iff])]

/-- C4: for every mutually consistent pair from {component, reactance
magnitude, angular frequency} — all non-negative, capacitance strictly
positive, consistency formalised as claimed: the pair admits exactly one
admissible third value satisfying the closed form `X_L = omega * L`
respectively `X_C = 1 / (omega * C)` — the deriver never fails and returns a
third value matching that closed form. -/
theorem C4_consistent_pair_derivation (k : ParamType) :
    (∀ c w : ℝ, 0 ≤ c → 0 ≤ w → (k = .C → 0 < c) →
        (∃! x : ℝ, 0 ≤ x ∧ reactanceRel k c x w) →
        ∃ x : ℝ, reactanceRel k c x w ∧
          calculate_derived_reactance_params (some (.fin c)) none (some (.fin w)) k
            = .ok (some (.fin c), some (.fin x), some (.fin w)))
  ∧ (∀ x w : ℝ, 0 ≤ x → 0 ≤ w →
        (∃! c : ℝ, (0 ≤ c ∧ (k = .C → 0 < c)) ∧ reactanceRel k c x w) →
        ∃ c : ℝ, reactanceRel k c x w ∧
          calculate_derived_reactance_params none (some (.fin x)) (some (.fin w)) k
            = .ok (some (.fin c), some (.fin x), some (.fin w)))
  ∧ (∀ c x : ℝ, 0 ≤ c → 0 ≤ x → (k = .C → 0 < c) →
        (∃! w : ℝ, 0 ≤ w ∧ reactanceRel k c x w) →
        ∃ w : ℝ, reactanceRel k c x w ∧
          calculate_derived_reactance_params (some (.fin c)) (some (.fin x)) none k
            = .ok (some (.fin c), some (.fin x), some (.fin w))) := by
  refine ⟨?_, ?_, ?_⟩
  · intro c w hc hw hkc hu
    cases k
    · exact ⟨w * c, rfl, derive_L_comp_omega c w hc hw⟩
    · obtain ⟨x₀, ⟨-, hrel⟩, -⟩ := hu
      have hcp : (0 : ℝ) < c := hkc rfl
      have hw0 : w ≠ 0 := by
        rintro rfl
        simp only [reactanceRel, zero_mul] at hrel
        exact zero_ne_one hrel
      have hwp : (0 : ℝ) < w := lt_of_le_of_ne hw (Ne.symm hw0)
      refine ⟨1 / (w * c), ?_, derive_C_comp_omega c w hcp hwp⟩
      simp only [reactanceRel]
      field_simp
  · intro x w hx hw hu
    cases k
    · obtain ⟨c₀, ⟨⟨hc₀, -⟩, hrel⟩, huniq⟩ := hu
      simp only [reactanceRel] at hrel
      have hw0 : w ≠ 0 := by
        rintro rfl
        have h1 : c₀ + 1 = c₀ := huniq (c₀ + 1)
          ⟨⟨by linarith, fun h => by cases h⟩, by simp only [reactanceRel, zero_mul]; linarith⟩
        linarith
      have hwp : (0 : ℝ) < w := lt_of_le_of_ne hw (Ne.symm hw0)
      refine ⟨x / w, ?_, derive_L_react_omega x w hx hwp⟩
      simp only [reactanceRel]
      field_simp
    · obtain ⟨c₀, ⟨⟨-, hc₀⟩, hrel⟩, -⟩ := hu
      simp only [reactanceRel] at hrel
      have hw0 : w ≠ 0 := by
        rintro rfl
        simp only [zero_mul] at hrel
        exact zero_ne_one hrel
      have hwp : (0 : ℝ) < w := lt_of_le_of_ne hw (Ne.symm hw0)
      have hx0 : x ≠ 0 := by
        rintro rfl
        simp only [mul_zero] at hrel
        exact zero_ne_one hrel
      have hxp : (0 : ℝ) < x := lt_of_le_of_ne hx (Ne.symm hx0)
      refine ⟨1 / (w * x), ?_, derive_C_react_omega x w hxp hwp⟩
      simp only [reactanceRel]
      field_simp
  · intro c x hc hx hkc hu
    cases k
    · obtain ⟨w₀, ⟨hw₀, hrel⟩, huniq⟩ := hu
      simp only [reactanceRel] at hrel
      have hc0 : c ≠ 0 := by
        rintro rfl
        have h1 : w₀ + 1 = w₀ := huniq (w₀ + 1)
          ⟨by linarith, by simp only [reactanceRel, mul_zero]; linarith⟩
        linarith
      have hcp : (0 : ℝ) < c := lt_of_le_of_ne hc (Ne.symm hc0)
      refine ⟨x / c, ?_, derive_L_comp_react c x hcp hx⟩
      simp only [reactanceRel]
      field_simp
    · obtain ⟨w₀, ⟨-, hrel⟩, -⟩ := hu
      simp only [reactanceRel] at hrel
      have hcp : (0 : ℝ) < c := hkc rfl
      have hx0 : x ≠ 0 := by
        rintro rfl
        simp only [mul_zero] at hrel
        exact zero_ne_one hrel
      have hxp : (0 : ℝ) < x := lt_of_le_of_ne hx (Ne.symm hx0)
      refine ⟨1 / (c * x), ?_, derive_C_comp_react c x hcp hxp⟩
      simp only [reactanceRel]
      field_simp

/-- C4 witness: deriving the reactance of a `2 H` inductor at
`omega = 3 rad/s` (the unique consistent third value being `6`). -/
theorem C4_consistent_pair_derivation_witness :
    ∃ x : ℝ, reactanceRel .L 2 x 3 ∧
      calculate_derived_reactance_params (some (.fin 2)) none (some (.fin 3)) .L
        = .ok (some (.fin 2), some (.fin x), some (.fin 3)) := by
  refine (C4_consistent_pair_derivation .L).1 2 3 (by norm_num) (by norm_num)
    (fun h => by cases h) ⟨6, ⟨by norm_num, by simp [reactanceRel]; norm_num⟩, ?_⟩
  rintro y ⟨-, hy⟩
  simp only [reactanceRel] at hy
  rw [hy]
  norm_num

/-- C9: for every valid `(component, omega)` pair with `omega > 0`, deriving
the reactance and then re-deriving the component from `(reactance, omega)`
returns the original component exactly (hence within any tolerance), for both
element kinds. -/
theorem C9_round_trip (k : ParamType) (c w : ℝ)
    (hc : 0 ≤ c) (hw : 0 < w) (hkc : k = .C → 0 < c) :
    ∃ x : ℝ, 0 ≤ x ∧
      calculate_derived_reactance_params (some (.fin c)) none (some (.fin w)) k
        = .ok (some (.fin c), some (.fin x), some (.fin w)) ∧
      calculate_derived_reactance_params none (some (.fin x)) (some (.fin w)) k
        = .ok (some (.fin c), some (.fin x), some (.fin w)) := by
  cases k
  · refine ⟨w * c, by positivity, derive_L_comp_omega c w hc hw.le, ?_⟩
    rw [derive_L_react_omega (w * c) w (by positivity) hw,
      mul_div_cancel_left₀ c (ne_of_gt hw)]
  · have hcp : (0 : ℝ) < c := hkc rfl
    refine ⟨1 / (w * c), by positivity, derive_C_comp_omega c w hcp hw, ?_⟩
    rw [derive_C_react_omega (1 / (w * c)) w (by positivity) hw]
    have hwc : w * (1 / (w * c)) = 1 / c := by
      field_simp
    rw [hwc, one_div_one_div]

/-- C9 witness: the round trip for a `2 F` capacitor at `omega = 5 rad/s`. -/
theorem C9_round_trip_witness :
    ∃ x : ℝ, 0 ≤ x ∧
      calculate_derived_reactance_params (some (.fin 2)) none (some (.fin 5)) .C
        = .ok (some (.fin 2), some (.fin x), some (.fin 5)) ∧
      calculate_derived_reactance_params none (some (.fin x)) (some (.fin 5)) .C
        = .ok (some (.fin 2), some (.fin x), some (.fin 5)) :=
  C9_round_trip .C 2 5 (by norm_num) (by norm_num) (fun _ => by norm_num)

/-- C5: when all three of component, reactance and omega are populated, the
deriver recomputes the expected reactance from component and omega (`0` or
`+Infinity` at `omega = 0`, else the closed form) and compares it to the
actual reactance with relative tolerance `1e-6` and absolute tolerance
`1e-9`, two infinite values counting as equal and one-finite-one-infinite
always inconsistent; on mismatch it fails with the consistency `ValueError`
describing both values, otherwise it succeeds. -/
theorem C5_consistency_check (k : ParamType) (c w : ℝ) (x : PFloat)
    (hc : 0 ≤ c) (hw : 0 ≤ w) (hkc : k = .C → 0 < c) (hx : ValAdm x) :
    (claimConsistent x (claimExpectedReactance k c w) →
        calculate_derived_reactance_params (some (.fin c)) (some x) (some (.fin w)) k
          = .ok (some (.fin c), some x, some (.fin w)))
  ∧ (¬ claimConsistent x (claimExpectedReactance k c w) →
        calculate_derived_reactance_params (some (.fin c)) (some x) (some (.fin w)) k
          = .error (.valueError (.inconsistent k x (claimExpectedReactance k c w)))) := by
  have hxn : ¬ x.Lt (.fin 0) := by
    rcases x with a | _ | _ | _
    · simp only [ValAdm] at hx
      simp only [PFloat.Lt, not_lt]
      exact hx
    · simp [PFloat.Lt]
    · exact absurd hx (by simp [ValAdm])
    · exact absurd hx (by simp [ValAdm])
  have he : (∃ b, claimExpectedReactance k c w = .fin b) ∨
      claimExpectedReactance k c w = .inf := by
    simp only [claimExpectedReactance]
    split_ifs <;> simp
  have key := derive_all_some k c w x hc hw hkc hxn
  have hval := deriveValidate_all_some k c w x hkc
  have hiff := consistentChk_iff_claim x (claimExpectedReactance k c w) hx he
  constructor
  · intro hcons
    rw [key, hval, if_pos (hiff.mpr hcons)]
  · intro hcons
    rw [key, hval, if_neg (fun hch => hcons (hiff.mp hch))]

/-- C5 witness: `component = 1.0, reactance = 10.0, omega = 1.0, kind = L`
(expected reactance `1.0`) always fails with the consistency error. -/
theorem C5_consistency_check_witness :
    calculate_derived_reactance_params (some (.fin 1)) (some (.fin 10)) (some (.fin 1)) .L
      = .error (.valueError (.inconsistent .L (.fin 10) (claimExpectedReactance .L 1 1))) := by
  apply (C5_consistency_check .L 1 1 (.fin 10) (by norm_num) (by norm_num)
    (by intro h; exact absurd h (by simp)) (by simp only [ValAdm]; norm_num)).2
  have hce : claimExpectedReactance .L 1 1 = .fin 1 := by
    simp [claimExpectedReactance]
  rw [hce]
  simp only [claimConsistent, isclose, not_le]
  rw [show |(10 : ℝ) - 1| = 9 by
      rw [abs_of_nonneg (by norm_num : (0 : ℝ) ≤ 10 - 1)]; norm_num,
    show |(10 : ℝ)| = 10 from abs_of_nonneg (by norm_num),
    show |(1 : ℝ)| = 1 from abs_of_nonneg (by norm_num)]
  rw [max_eq_left (by norm_num), max_eq_left (by norm_num)]
  norm_num

/-- C8: for non-negative `V_rms`, `R` and strictly positive `L`, `C`, `f` the
series RLC solver succeeds and returns `omega = 2*pi*f`, `X_L = omega*L`,
`X_C = 1/(omega*C)`, `X = X_L - X_C`, `Z = hypot(R, X)`,
`phi = degrees(atan2(X, R))`, and `I_rms = V_rms / Z` except that at `Z = 0`
it is `+Infinity` when `V_rms > 0` and `0` otherwise. -/
theorem C8_series_rlc_formulas (V_rms R L C f : ℝ)
    (hV : 0 ≤ V_rms) (hR : 0 ≤ R) (hL : 0 < L) (hC : 0 < C) (hf : 0 < f) :
    ∃ r, calculate_series_rlc_circuit V_rms R L C f = .ok r ∧
      r.omega = twoPiR * f ∧
      r.X_L = r.omega * L ∧
      r.X_C = 1 / (r.omega * C) ∧
      r.X = r.X_L - r.X_C ∧
      r.Z = hypotR R r.X ∧
      r.phi = degreesR (atan2R r.X R) ∧
      r.I_rms = (if r.Z = 0 then (if 0 < V_rms then PFloat.inf else .fin 0)
                 else .fin (V_rms / r.Z)) := by
  have hωC : twoPiR * f * C ≠ 0 := by
    simp only [twoPiR]
    positivity
  simp only [calculate_series_rlc_circuit, rdiv]
  rw [if_neg (by push_neg; exact ⟨hV, hR, hL.le, hC.le, hf.le⟩),
    if_neg (by push_neg; exact ⟨hL, hC, hf⟩), if_neg hωC]
  simp only [Except.bind]
  refine ⟨_, rfl, ?_, ?_, ?_, ?_, ?_, ?_, ?_⟩
  all_goals rfl

/-- C8 witness: the formulas at the spec's concrete series-RLC example
inputs. -/
theorem C8_series_rlc_formulas_witness :
    ∃ r, calculate_series_rlc_circuit 10 10 (1 / 20) (1 / 1000000) 1000 = .ok r ∧
      r.omega = twoPiR * 1000 ∧ r.X_L = r.omega * (1 / 20) := by
  obtain ⟨r, h1, h2, h3, -⟩ :=
    C8_series_rlc_formulas 10 10 (1 / 20) (1 / 1000000) 1000 (by norm_num)
      (by norm_num) (by norm_num) (by norm_num) (by norm_num)
  exact ⟨r, h1, h2, h3⟩

/-- C6: whenever a series-AC solve succeeds with final reactance `+Infinity`,
the result has `Z = +Infinity`, `phi = -90`, `I_rms = 0`, `V_rms_R = 0` and
`V_rms_X = V_rms`. -/
theorem C6_infinite_reactance_outputs (V R : ℝ) (oc ox f : Option PFloat)
    (ct : CircuitType) (r : SeriesACResult)
    (h : calculate_series_ac_circuit V R oc ox f ct = .ok r) (hX : r.X = .inf) :
    r.Z = .inf ∧ r.phi = .fin (-90) ∧ r.I_rms = .fin 0 ∧ r.V_rms_R = .fin 0 ∧
      r.V_rms_X = .fin V := by
  obtain ⟨-, -, -, fc, fx, fw, -, hfin⟩ := seriesAC_ok_destruct h
  exact finish_X_inf hfin hX

/-- C6 witness: `solve(V_rms=10, R=100, component=1e-6, reactance=None,
frequency=0, kind=RC)` hits the infinite-reactance case and yields exactly
the claimed values. -/
theorem C6_infinite_reactance_outputs_witness :
    ∃ r, calculate_series_ac_circuit 10 100 (some (.fin (1 / 1000000))) none
        (some (.fin 0)) .RC = .ok r ∧
      r.Z = .inf ∧ r.phi = .fin (-90) ∧ r.I_rms = .fin 0 ∧ r.V_rms_R = .fin 0 ∧
        r.V_rms_X = .fin 10 := by
  obtain ⟨r, hr, hX⟩ := evalRC_dc_example
  exact ⟨r, hr, C6_infinite_reactance_outputs 10 100 _ _ _ .RC r hr hX⟩

/-- C7: the series-AC solver accepts the RC DC-open-circuit case (derived
reactance `+Infinity` with no determined omega), reporting `f = omega = 0`;
in every other case where the post-derivation reactance or omega is
undetermined it fails with the insufficient-parameters `ValueError`. -/
theorem C7_dc_open_and_insufficient (V R : ℝ) (oc ox f : Option PFloat)
    (ct : CircuitType) (fc fx fw : Option PFloat)
    (hV : 0 ≤ V) (hR : 0 ≤ R) (hf : ¬ optLt0 f)
    (hd : calculate_derived_reactance_params oc ox (f.map (fun fv => twoPiF.mul fv))
        (if ct = .RL then ParamType.L else ParamType.C) = .ok (fc, fx, fw)) :
    ((ct = .RC ∧ fx = some PFloat.inf ∧ fw = none) →
        ∃ r, calculate_series_ac_circuit V R oc ox f ct = .ok r ∧
          r.f = some (.fin 0) ∧ r.omega = some (.fin 0))
  ∧ ((fx = none ∨ (fw = none ∧ ¬ (ct = .RC ∧ fx = some PFloat.inf))) →
        calculate_series_ac_circuit V R oc ox f ct
          = .error (.valueError (.insufficientParams ct))) := by
  have hmain : calculate_series_ac_circuit V R oc ox f ct
      = seriesACFinish V R oc ox f ct fc fx fw := by
    simp only [calculate_series_ac_circuit]
    rw [if_neg (not_lt.mpr hV), if_neg (not_lt.mpr hR), if_neg hf]
    simp only [hd]
  constructor
  · rintro ⟨rfl, rfl, rfl⟩
    obtain ⟨r, hr, hf0, hw0, -⟩ := finish_dc_open V R oc ox f fc
    exact ⟨r, by rw [hmain]; exact hr, hf0, hw0⟩
  · intro hcond
    rw [hmain]
    exact finish_insufficient V R oc ox f ct fc fx fw hcond

/-- C7 witness: with only the reactance supplied (as `+Infinity`) the deriver
passes the values through; the RC solver accepts and reports `f = omega = 0`. -/
theorem C7_dc_open_and_insufficient_witness :
    ∃ r, calculate_series_ac_circuit 10 5 none (some PFloat.inf) none .RC = .ok r ∧
      r.f = some (.fin 0) ∧ r.omega = some (.fin 0) := by
  have hd : calculate_derived_reactance_params none (some PFloat.inf)
      ((none : Option PFloat).map (fun fv => twoPiF.mul fv))
      (if CircuitType.RC = .RL then ParamType.L else ParamType.C)
      = .ok (none, some PFloat.inf, none) := by
    simp only [Option.map, calculate_derived_reactance_params]
    rw [if_neg (by simp [optLt0]), if_neg (by simp [optLt0, PFloat.Lt]),
      if_neg (by simp [optLt0]), if_neg (by simp [optLe0]),
      if_pos (by norm_num [countSome])]
  exact (C7_dc_open_and_insufficient 10 5 none (some PFloat.inf) none .RC none
    (some PFloat.inf) none (by norm_num) (by norm_num) (by simp [optLt0]) hd).1
    ⟨rfl, rfl, rfl⟩

/-- C10: every successful RC series-AC solve with admissible inputs returns a
phase angle in the closed interval `[-90, 0]` degrees. -/
theorem C10_rc_phase_in_range (V R : ℝ) (oc ox f : Option PFloat)
    (r : SeriesACResult)
    (hcadm : OptAdm oc) (hxadm : OptAdm ox) (hfadm : OptAdm f)
    (h : calculate_series_ac_circuit V R oc ox f .RC = .ok r) :
    ∃ p : ℝ, r.phi = .fin p ∧ -90 ≤ p ∧ p ≤ 0 := by
  obtain ⟨hV, hR, hfn, fc, fx, fw, hd, hfin⟩ := seriesAC_ok_destruct h
  have hadm := derive_ok_adm hcadm hxadm (optAdm_map_twoPi hfadm) hd
  rcases finish_phi hfin with hphi | hphi | ⟨X, hfx, hXne, hphi⟩
  · exact ⟨-90, hphi, by norm_num, by norm_num⟩
  · exact ⟨0, hphi, by norm_num, by norm_num⟩
  · subst hfx
    have hXadm : ValAdm X := optAdm_some.mp hadm.2.1
    rcases X with t | _ | _ | _
    · have ht : 0 ≤ t := hXadm
      refine ⟨degreesR (Complex.arg ⟨R, -t⟩), ?_, (phi_bound R t hR ht).1,
        (phi_bound R t hR ht).2⟩
      rw [hphi]
      simp [PFloat.neg, patan2R, pdeg]
    · exact absurd rfl hXne
    · exact absurd hXadm (by simp [ValAdm])
    · exact absurd hXadm (by simp [ValAdm])

/-- C10 witness: the phase of the DC-open RC example lies in `[-90, 0]`. -/
theorem C10_rc_phase_in_range_witness :
    ∃ r, calculate_series_ac_circuit 10 100 (some (.fin (1 / 1000000))) none
        (some (.fin 0)) .RC = .ok r ∧ ∃ p : ℝ, r.phi = .fin p ∧ -90 ≤ p ∧ p ≤ 0 := by
  obtain ⟨r, hr, -⟩ := evalRC_dc_example
  exact ⟨r, hr, C10_rc_phase_in_range 10 100 _ _ _ r (by norm_num [OptAdm])
    (by simp [OptAdm]) (by norm_num [OptAdm]) hr⟩

/-- C3: for every call of any of the three solvers with inputs admitted by its
preconditions (real-valued scalars, optional inputs absent, non-negative real,
or the `+Infinity` sentinel) that returns successfully, every value in the
returned mapping is absent, a finite float, or `+Infinity` — never `nan` and
never `-Infinity`. -/
theorem C3_results_never_nan :
    (∀ (V R : ℝ) (oc ox f : Option PFloat) (ct : CircuitType) (r : SeriesACResult),
        OptAdm oc → OptAdm ox → OptAdm f →
        calculate_series_ac_circuit V R oc ox f ct = .ok r → SeriesACResultNum r)
  ∧ (∀ (V R L C f : ℝ) (r : SeriesRLCResult),
        calculate_series_rlc_circuit V R L C f = .ok r → SeriesRLCResultNum r)
  ∧ (∀ (V R L C f : ℝ) (r : ParallelRLCResult),
        calculate_parallel_rlc_circuit V R L C f = .ok r → ParallelRLCResultNum r) := by
  refine ⟨?_, fun V R L C f r h => seriesRLC_ok_num h,
    fun V R L C f r h => parallel_ok_num h⟩
  intro V R oc ox f ct r hcadm hxadm hfadm h
  obtain ⟨hV, hR, hfn, fc, fx, fw, hd, hfin⟩ := seriesAC_ok_destruct h
  obtain ⟨h1, h2, h3⟩ := derive_ok_adm hcadm hxadm (optAdm_map_twoPi hfadm) hd
  exact finish_num h1 h2 h3 hcadm hxadm hfadm hfin

/-- C3 witness: one successful call of each solver, whose results are all
`nan`-free. -/
theorem C3_results_never_nan_witness :
    (∃ r, calculate_series_ac_circuit 10 100 (some (.fin (1 / 1000000))) none
        (some (.fin 0)) .RC = .ok r ∧ SeriesACResultNum r)
  ∧ (∃ r, calculate_series_rlc_circuit 10 10 (1 / 20) (1 / 1000000) 1000 = .ok r ∧
        SeriesRLCResultNum r)
  ∧ (∃ r, calculate_parallel_rlc_circuit 10 100 (1 / 10) (1 / 100000) 1000 = .ok r ∧
        ParallelRLCResultNum r) := by
  obtain ⟨r1, h1, -⟩ := evalRC_dc_example
  obtain ⟨r2, h2⟩ := seriesRLC_example_ok
  obtain ⟨r3, h3⟩ := parallel_example_ok
  exact ⟨⟨r1, h1, C3_results_never_nan.1 10 100 _ _ _ .RC r1 (by norm_num [OptAdm])
      (by simp [OptAdm]) (by norm_num [OptAdm]) h1⟩,
    ⟨r2, h2, C3_results_never_nan.2.1 10 10 (1 / 20) (1 / 1000000) 1000 r2 h2⟩,
    ⟨r3, h3, C3_results_never_nan.2.2 10 100 (1 / 10) (1 / 100000) 1000 r3 h3⟩⟩

end RCRL
